import Mathlib

/-!
Verification development for the Iron language interpreter
(`src/ast.rs`, `src/parser.rs`, `src/interp.rs`, `src/iron.rs`).

The Rust sources are shallowly embedded below: machine integers (`i64`,
`uint`) are modelled as `Int`/`Nat` with explicit wrapping where the Rust
code can overflow, `f64` values are modelled by the executable binary64
model `F`, fallible operations (Rust `fail!`, `Option::unwrap`) return
`Option`, and the interpreter's shared mutable environments
(`Rc<RefCell<Environment>>`) are modelled by a store of frames addressed
by allocation index.
-/

set_option maxRecDepth 8000

namespace Iron

/-- Wrap an unbounded integer into the `i64` range, modelling Rust's
wrapping 64-bit signed arithmetic (`interp.rs` and `parser.rs` build
`i64` values without overflow checks). -/
def wrap64 (n : Int) : Int :=
  (n + 2 ^ 63) % 2 ^ 64 - 2 ^ 63

/-! ### Binary64 model

`F` models IEEE-754 binary64 (`f64`) values: NaN, signed infinities, and
finite dyadic values `m * 2 ^ e` kept in normalized form (`m` odd or
`m = e = 0`), so that structural equality of finite values coincides with
numerical equality.  Signed zero is not distinguished: none of the
embedded operations can observe the sign of a zero.  The only `f64`
operations the Rust sources perform are `i64 -> f64` conversion, `uint ->
f64` conversion, addition, division (`parser.rs` float literals) and
`f64 -> i64` casts; all are defined below through one correctly-rounded
`roundQ` (round to nearest, ties to even, overflow to infinity, gradual
underflow via the exponent clamp at `2 ^ (-1074)`). -/

inductive F where
  | nan : F
  | inf : Bool → F
  | finite : Int → Int → F
  deriving DecidableEq, Repr

namespace F

/-- Strip factors of two from a mantissa, producing the normalized
`(mantissa, exponent)` pair for `m * 2 ^ e`.  The first argument is
fuel (any value `≥ m` is enough); fuel keeps the recursion structural so
that concrete values compute inside the kernel. -/
def normAux : Nat → Nat → Int → Nat × Int
  | 0, m, e => (m, e)
  | fuel + 1, m, e =>
      if m = 0 then (0, 0)
      else if m % 2 = 0 then normAux fuel (m / 2) (e + 1)
      else (m, e)

/-- Build a normalized finite value from sign, natural mantissa and exponent. -/
def mkFinite (neg : Bool) (m : Nat) (e : Int) : F :=
  let p := normAux m m e
  if p.1 = 0 then .finite 0 0
  else .finite (if neg then -(p.1 : Int) else (p.1 : Int)) p.2

/-- Base-two logarithm (`⌊log₂ n⌋`, `0` for `n = 0`), by fuel so that it
computes inside the kernel. -/
def log2F : Nat → Nat → Nat
  | 0, _ => 0
  | fuel + 1, n => if n ≥ 2 then log2F fuel (n / 2) + 1 else 0

/-- Decide `m * 2 ^ e ≥ 2 ^ c` for a positive mantissa `m`. -/
def dyadicGePow (m : Nat) (e c : Int) : Bool :=
  if e ≥ c then true
  else m ≥ 2 ^ (c - e).toNat

/-- Round the nonnegative integer `n` to the nearest multiple-of-one with
ties to even; `n` is given scaled as the fraction `num / den`. -/
def rndHalfEven (num den : Nat) : Nat :=
  let q := num / den
  let r := num % den
  if 2 * r < den then q
  else if 2 * r > den then q + 1
  else if q % 2 = 0 then q else q + 1

/-- Exponent `e` with `2 ^ e ≤ num / den < 2 ^ (e + 1)` for positive
`num`, `den`. -/
def fexp (num den : Nat) : Int :=
  let a : Int := log2F num num
  let b : Int := log2F den den
  let e0 := a - b
  -- num / den ≥ 2 ^ e0 ?
  let ge : Bool :=
    if e0 ≥ 0 then num ≥ den * 2 ^ e0.toNat
    else num * 2 ^ (-e0).toNat ≥ den
  if ge then e0 else e0 - 1

/-- Correctly round the rational `num / den` (`den > 0`) to binary64. -/
def roundQ (num : Int) (den : Nat) : F :=
  if num = 0 then .finite 0 0 else
  let neg := num < 0
  let n := num.natAbs
  let e := fexp n den
  -- scale: the unit in the last place is 2 ^ (-k)
  let k : Int := min (52 - e) 1074
  let (sn, sd) :=
    if k ≥ 0 then (n * 2 ^ k.toNat, den) else (n, den * 2 ^ (-k).toNat)
  let m := rndHalfEven sn sd
  if m = 0 then .finite 0 0
  else if dyadicGePow m (-k) 1024 then .inf neg
  else mkFinite neg m (-k)

/-- `i64 as f64` (round to nearest). -/
def ofInt (n : Int) : F := roundQ n 1

/-- `f64` addition. -/
def add : F → F → F
  | .nan, _ => .nan
  | _, .nan => .nan
  | .inf s, .inf t => if s = t then .inf s else .nan
  | .inf s, .finite _ _ => .inf s
  | .finite _ _, .inf s => .inf s
  | .finite m1 e1, .finite m2 e2 =>
      let e := min e1 e2
      let s := m1 * 2 ^ (e1 - e).toNat + m2 * 2 ^ (e2 - e).toNat
      if e ≥ 0 then roundQ (s * 2 ^ e.toNat) 1
      else roundQ s (2 ^ (-e).toNat)

/-- `f64` division. -/
def div : F → F → F
  | .nan, _ => .nan
  | _, .nan => .nan
  | .inf _, .inf _ => .nan
  | .inf s, .finite m _ => if m < 0 then .inf (!s) else .inf s
  | .finite _ _, .inf _ => .finite 0 0
  | .finite m1 e1, .finite m2 e2 =>
      if m2 = 0 then (if m1 = 0 then .nan else .inf (decide (m1 < 0)))
      else
        let neg := (m1 < 0) ≠ (m2 < 0)
        let num := m1.natAbs
        let den := m2.natAbs
        let e := e1 - e2
        let (sn, sd) :=
          if e ≥ 0 then (num * 2 ^ e.toNat, den) else (num, den * 2 ^ (-e).toNat)
        roundQ (if neg then -(sn : Int) else (sn : Int)) sd

/-- `f64 as i64`: truncation toward zero, saturating at the `i64` bounds,
`0` for NaN (undefined in the source's Rust era; all values cast in the
theorems below are small in-range integers, where every semantics agrees). -/
def toI64 : F → Int
  | .nan => 0
  | .inf s => if s then -(2 ^ 63) else 2 ^ 63 - 1
  | .finite m e =>
      let v : Int :=
        if e ≥ 0 then m * 2 ^ e.toNat
        else (if m < 0 then -(m.natAbs / 2 ^ (-e).toNat : Nat) else (m.natAbs / 2 ^ (-e).toNat : Nat))
      if v < -(2 ^ 63) then -(2 ^ 63) else if v > 2 ^ 63 - 1 then 2 ^ 63 - 1 else v

/-- `f64` equality (`==`), as used by the derived equality on the AST:
NaN compares unequal to everything, finite values compare numerically
(structural equality of the normalized representation). -/
def feq : F → F → Bool
  | .nan, _ => false
  | _, .nan => false
  | .inf s, .inf t => s = t
  | .inf _, .finite _ _ => false
  | .finite _ _, .inf _ => false
  | .finite m1 e1, .finite m2 e2 => m1 = m2 && e1 = e2

end F

/-! ### AST model (`src/ast.rs`)

`ExprAst` mirrors the Rust tagged sum, with the boxed payload structs
(`SexprAst`, `IdentAst`, ...) flattened into the constructors.  The
`code` constructor's captured environment (`Rc<RefCell<Environment>>` in
`CodeAst`) is represented by the index of the captured frame in the
interpreter's frame store (see below). -/

inductive ExprAst where
  | root (asts : List ExprAst)
  | sexpr (op : String) (operands : List ExprAst)
  | str (s : String)
  | list (items : List ExprAst)
  | array (items : List ExprAst)
  | pointer (pointee : ExprAst)
  | ident (value : String)
  | symbol (value : String)
  | integer (value : Int)
  | float (value : F)
  | boolean (value : Bool)
  | nil
  | comment (value : String)
  | code (params : List ExprAst) (body : List ExprAst) (env : Nat)

/-- Structural equality on AST nodes, mirroring the Rust `deriving(Eq)`
(used by the `=` builtin's `!=`).  Floats compare by `f64 ==` (`F.feq`),
so a NaN payload is unequal to everything including itself.  For `code`
values the Rust derive compares the captured environments by value; here
the captured frame indices are compared instead (claims never compare
`code` values; the spec treats them as opaque for `=`). -/
def ExprAst.beq : ExprAst → ExprAst → Bool
  | .root xs, .root ys => beqList xs ys
  | .sexpr o xs, .sexpr p ys => o = p && beqList xs ys
  | .str a, .str b => a = b
  | .list xs, .list ys => beqList xs ys
  | .array xs, .array ys => beqList xs ys
  | .pointer a, .pointer b => a.beq b
  | .ident a, .ident b => a = b
  | .symbol a, .symbol b => a = b
  | .integer a, .integer b => a = b
  | .float a, .float b => F.feq a b
  | .boolean a, .boolean b => a = b
  | .nil, .nil => true
  | .comment a, .comment b => a = b
  | .code ps bs e, .code qs cs f => beqList ps qs && beqList bs cs && e = f
  | _, _ => false
where
  /-- Pointwise `ExprAst.beq` on lists. -/
  beqList : List ExprAst → List ExprAst → Bool
  | [], [] => true
  | x :: xs, y :: ys => x.beq y && beqList xs ys
  | _, _ => false

/-! ### Environment model (`src/interp.rs`, `Environment`)

A Rust `Environment` is a `HashMap<~str, EnvValue>` plus an optional
parent `Rc<RefCell<Environment>>`.  Environments are shared and mutated
through the `Rc<RefCell<...>>` handles, so the embedding keeps every
environment in a `Store` (list of frames, indexed by allocation order —
a fresh frame is appended at the end, hence a frame's parent index is
always smaller than its own) and passes frame indices where the Rust
code passes `Rc` handles.  The `HashMap` becomes an association list
with insert-overwrite semantics; `HashMap` iteration order is
unspecified in Rust, but no embedded operation depends on it (inserts of
distinct keys commute). -/

/-- A builtin operator name (`EnvValue::Code(fn ...)` in the source holds
a host function pointer; the set of host functions is closed, so a tag
is enough). -/
inductive Builtin where
  | add | equal | print | ifexpr | define | function
  | get | set | len | importexpr | type_obj
  deriving DecidableEq, Repr

/-- `EnvValue`: either interpreted data (`Value`) or a host builtin
(`Code` in the source; renamed `builtin` to avoid clashing with
`ExprAst.code`). -/
inductive EnvValue where
  | builtin (b : Builtin)
  | value (v : ExprAst)

/-- One environment frame: parent link and name-to-value mapping. -/
structure Frame where
  parent : Option Nat
  values : List (String × EnvValue)

/-- The store of all allocated environment frames, indexed by `Nat`. -/
abbrev Store := List Frame

/-- Lookup in one frame's mapping (`HashMap::find`): first (unique)
binding of the key. -/
def lookupName : List (String × EnvValue) → String → Option EnvValue
  | [], _ => none
  | (k, v) :: rest, key => if k = key then some v else lookupName rest key

/-- Insert into one frame's mapping (`HashMap::insert`): overwrite the
existing binding of the key in place, otherwise append. -/
def frameInsert : List (String × EnvValue) → String → EnvValue → List (String × EnvValue)
  | [], key, v => [(key, v)]
  | (k, w) :: rest, key, v =>
      if k = key then (k, v) :: rest else (k, w) :: frameInsert rest key v

/-- `Environment::find` (interp.rs 201-209): look in the current frame,
else recurse into the parent.  The first argument is fuel for the
parent-chain walk (frames are allocated parents-first, so any fuel
`> id` terminates the walk; fuel keeps the recursion structural). -/
def envFind : Nat → Store → Nat → String → Option EnvValue
  | 0, _, _, _ => none
  | fuel + 1, st, id, key =>
      match st.get? id with
      | none => none
      | some fr =>
          match lookupName fr.values key with
          | some v => some v
          | none =>
              match fr.parent with
              | some p => envFind fuel st p key
              | none => none

/-- `Environment::replace` (interp.rs 211-221): overwrite the binding in
the first frame, walking parent-ward, that already holds the key;
returns whether a frame held it. -/
def envReplace : Nat → Store → Nat → String → EnvValue → Store × Bool
  | 0, st, _, _, _ => (st, false)
  | fuel + 1, st, id, key, v =>
      match st.get? id with
      | none => (st, false)
      | some fr =>
          if (lookupName fr.values key).isSome then
            (st.set id ⟨fr.parent, frameInsert fr.values key v⟩, true)
          else
            match fr.parent with
            | some p => envReplace fuel st p key v
            | none => (st, false)

/-- Insertion into the current frame, as performed by
`env.borrow_mut().values.insert(...)` in the `define` builtin
(interp.rs 324) and by `set_file`/`populate_default`.  The current frame
always exists; a dangling index leaves the store unchanged
(unreachable). -/
def defineInsert (st : Store) (id : Nat) (key : String) (v : EnvValue) : Store :=
  match st.get? id with
  | none => st
  | some fr => st.set id ⟨fr.parent, frameInsert fr.values key v⟩

/-- `Environment::populate_default` (interp.rs 223-236): the global
frame's initial bindings, in insertion order. -/
def populate_default : List (String × EnvValue) :=
  [("FILE", .value (.str "")),
   ("+", .builtin .add),
   ("=", .builtin .equal),
   ("print", .builtin .print),
   ("if", .builtin .ifexpr),
   ("define", .builtin .define),
   ("fn", .builtin .function),
   ("get", .builtin .get),
   ("set", .builtin .set),
   ("len", .builtin .len),
   ("import", .builtin .importexpr),
   ("type", .builtin .type_obj)]

/-- The store of a freshly created interpreter (`Interpreter::new`):
one global frame with no parent, holding the default bindings. -/
def store0 : Store := [⟨none, populate_default⟩]

/-! ### Operand-stack primitives

The operand stack is a Rust `Vec<ExprAst>`, here a `List` whose last
element is the top.  `Vec::remove(i)` in the source's Rust returns
`Option`, `None` when `i` is out of range; indices are computed with
`uint` subtraction, whose underflow produces a huge index and hence a
failed `remove`/`unwrap` — `rustRemoveSub` models exactly that. -/

/-- `Vec::remove(i)`: the removed element and the remaining vector, or
`none` when the index is out of range. -/
def vecRemove (s : List ExprAst) (i : Nat) : Option (ExprAst × List ExprAst) :=
  match s.get? i with
  | none => none
  | some x => some (x, s.eraseIdx i)

/-- `(*stack).remove(a - b)` where `a - b` is `uint` subtraction: on
underflow the index wraps far out of range and the `remove` fails. -/
def rustRemoveSub (s : List ExprAst) (a b : Nat) : Option (ExprAst × List ExprAst) :=
  if a < b then none else vecRemove s (a - b)

/-- `Vec::pop` repeated `n` times with the result discarded (the
truncation loop in closure application, interp.rs 140-142); popping an
empty vector is a silent no-op there because the `Option` result is
dropped. -/
def popN : Nat → List ExprAst → List ExprAst
  | 0, s => s
  | n + 1, s => popN n s.dropLast

/-- `Vec::from_fn(n, |_| stack.remove(idx).unwrap())` (interp.rs 152):
remove `n` values at the fixed index `idx`, in order; any failed remove
aborts. -/
def removeN : Nat → Nat → List ExprAst → Option (List ExprAst × List ExprAst)
  | 0, _, s => some ([], s)
  | n + 1, idx, s =>
      match vecRemove s idx with
      | none => none
      | some (x, s') =>
          match removeN n idx s' with
          | none => none
          | some (xs, s'') => some (x :: xs, s'')

/-- The stack-trim loop body (interp.rs 182-185): remove the last
element `n` times. -/
def trimLoop : Nat → List ExprAst → List ExprAst
  | 0, s => s
  | n + 1, s => trimLoop n s.dropLast

/-- The stack-trim loop (interp.rs 182-185): `for _ in range(stacklen +
1, stack.len())` removes the top element once per iteration, so the
stack is cut down to at most `stacklen + 1` elements, keeping the
bottom-most ones. -/
def trimTo (stacklen : Nat) (s : List ExprAst) : List ExprAst :=
  trimLoop (s.length - (stacklen + 1)) s

/-! ### Builtins without interpreter recursion (`src/interp.rs`) -/

namespace Environment

/-- The accumulation loop of `Environment::add` (interp.rs 243-257):
pop `ops` values, adding each into the `f64` accumulator; a `Float`
operand sets the `decimal` flag; any other variant fails. -/
def addLoop : Nat → List ExprAst → F → Bool → Option (List ExprAst × F × Bool)
  | 0, stack, val, dec => some (stack, val, dec)
  | k + 1, stack, val, dec =>
      match stack.getLast? with
      | none => none
      | some (.integer n) => addLoop k stack.dropLast (F.add val (F.ofInt n)) dec
      | some (.float f) => addLoop k stack.dropLast (F.add val f) true
      | some _ => none

/-- `Environment::add` (interp.rs 238-259): sum `ops` operands in an
`f64` accumulator starting from `0.0`; return `Float` if any operand was
a `Float`, else the accumulator cast back to `i64` as an `Integer`. -/
def add (stack : List ExprAst) (ops : Nat) : Option (List ExprAst × ExprAst) :=
  match addLoop ops stack (.finite 0 0) false with
  | none => none
  | some (s', val, dec) =>
      some (s', if dec then .float val else .integer (F.toI64 val))

/-- The escape-sequence scan of `Environment::print` on a `String`
operand (interp.rs 269-293): `\\` is an escaped backslash, `\n` and `\t`
are accepted, any other escape fails, and a trailing `\` fails. -/
def escOk : List Char → Bool → Bool
  | [], esc => !esc
  | c :: rest, esc =>
      if c = '\\' then escOk rest (!esc)
      else if esc then decide (c = 'n' ∨ c = 't') && escOk rest false
      else escOk rest false

/-- Whether `Environment::print` accepts a value (interp.rs 265-299);
output itself is not modelled. -/
def printable : ExprAst → Bool
  | .integer _ => true
  | .float _ => true
  | .str s => escOk s.data false
  | .symbol _ => true
  | .boolean _ => true
  | _ => false

/-- The removal loop of `Environment::print` (interp.rs 264-301):
remove the operand window left to right via `remove(len - ops)`. -/
def printLoop : Nat → List ExprAst → Option (List ExprAst)
  | 0, s => some s
  | k + 1, s =>
      match rustRemoveSub s s.length (k + 1) with
      | none => none
      | some (x, s') => if printable x then printLoop k s' else none

/-- `Environment::print` (interp.rs 261-303): validate and consume the
operands, return `Integer(0)`. -/
def print (stack : List ExprAst) (ops : Nat) : Option (List ExprAst × ExprAst) :=
  (printLoop ops stack).map fun s' => (s', .integer 0)

/-- The comparison loop of `Environment::equal` (interp.rs 438-443):
pop and compare against the first-popped operand, stopping early at the
first mismatch. -/
def equalLoop : Nat → List ExprAst → ExprAst → Option (List ExprAst × ExprAst)
  | 0, s, _ => some (s, .boolean true)
  | k + 1, s, cmp =>
      match s.getLast? with
      | none => none
      | some x =>
          if x.beq cmp then equalLoop k s.dropLast cmp
          else some (s.dropLast, .boolean false)

/-- `Environment::equal` (interp.rs 430-445). -/
def equal (stack : List ExprAst) (ops : Nat) : Option (List ExprAst × ExprAst) :=
  if ops < 2 then none
  else
    match stack.getLast? with
    | none => none
    | some cmp => equalLoop (ops - 1) stack.dropLast cmp

/-- The body-collection loop of `Environment::function`
(interp.rs 340-343): remove the remaining operand window left to right. -/
def fnCollect : Nat → List ExprAst → Option (List ExprAst × List ExprAst)
  | 0, s => some ([], s)
  | k + 1, s =>
      match rustRemoveSub s s.length (k + 1) with
      | none => none
      | some (x, s') =>
          match fnCollect k s' with
          | none => none
          | some (xs, s'') => some (x :: xs, s'')

/-- `Environment::function` (interp.rs 328-345): first operand must be
the parameter `Array`, the rest form the body; the produced `Code`
captures the current environment. -/
def function (stack : List ExprAst) (ops : Nat) (envId : Nat) :
    Option (List ExprAst × ExprAst) :=
  if ops = 0 then none
  else
    match rustRemoveSub stack stack.length ops with
    | some (.array params, s1) =>
        match fnCollect (ops - 1) s1 with
        | none => none
        | some (body, s2) => some (s2, .code params body envId)
    | _ => none

/-- `Environment::get` (interp.rs 347-373): collection must be an
`Array`, index an `Integer`; a negative index counts from the end
(failing when `len < -index`); the final element fetch fails when out of
range. -/
def get (stack : List ExprAst) (ops : Nat) : Option (List ExprAst × ExprAst) :=
  if ops ≠ 2 then none
  else
    match rustRemoveSub stack stack.length 2 with
    | some (.array items, s1) =>
        match s1.getLast? with
        | some (.integer i) =>
            let s2 := s1.dropLast
            if i < 0 then
              if (items.length : Int) < -i then none
              else
                match items.get? ((items.length : Int) + i).toNat with
                | some v => some (s2, v)
                | none => none
            else
              match items.get? i.toNat with
              | some v => some (s2, v)
              | none => none
        | _ => none
    | _ => none

/-- `Environment::set` (interp.rs 375-416): mutate an index of an array
bound to an identifier, growing it with `Nil` padding as needed
(`grow_set`), writing the new array back through `Environment::replace`
(whose `bool` result the source discards).  A first operand that is
already an `Array` value returns `Nil` at once, leaving the remaining
operands for the caller's trim loop. -/
def set (st : Store) (envId : Nat) (stack : List ExprAst) (ops : Nat) :
    Option (Store × (List ExprAst × ExprAst)) :=
  if ops ≠ 3 then none
  else
    match rustRemoveSub stack stack.length 3 with
    | none => none
    | some (first, s1) =>
        match first with
        | .array _ => some (st, (s1, .nil))
        | .ident name =>
            -- fuel `st.length + 1` bounds the parent walk: frames are
            -- allocated parents-first, so chains are shorter than the store
            match envFind (st.length + 1) st envId name with
            | some (.value (.array items)) =>
                match rustRemoveSub s1 s1.length 2 with
                | some (.integer i, s2) =>
                    match s2.getLast? with
                    | none => none
                    | some value =>
                        let s3 := s2.dropLast
                        let idxOpt : Option Nat :=
                          if i < 0 then
                            if (items.length : Int) < -i then none
                            else some ((items.length : Int) + i).toNat
                          else some i.toNat
                        match idxOpt with
                        | none => none
                        | some idx =>
                            let padded := items ++ List.replicate (idx + 1 - items.length) .nil
                            let grown := padded.set idx value
                            some ((envReplace (st.length + 1) st envId name
                                     (.value (.array grown))).1, (s3, .nil))
                | _ => none
            | _ => none
        | _ => none

/-- `Environment::len` (interp.rs 418-428).  The `uint -> i64` cast of
the length wraps in Rust; list lengths stay far below `2 ^ 63`, where the
cast is the identity. -/
def len (stack : List ExprAst) (ops : Nat) : Option (List ExprAst × ExprAst) :=
  if ops ≠ 1 then none
  else
    match stack.getLast? with
    | some (.array items) => some (stack.dropLast, .integer (items.length : Int))
    | _ => none

/-- The tag-to-name table of `Environment::type_obj` (interp.rs 513-524);
`none` for the variants whose match arm is `fail!`. -/
def typeName : ExprAst → Option String
  | .integer _ => some "integer"
  | .float _ => some "float"
  | .array _ => some "array"
  | .list _ => some "list"
  | .str _ => some "string"
  | .symbol _ => some "symbol"
  | .code _ _ _ => some "code"
  | .boolean _ => some "boolean"
  | .nil => some "nil"
  | _ => none

/-- `Environment::type_obj` (interp.rs 509-525). -/
def type_obj (stack : List ExprAst) (ops : Nat) : Option (List ExprAst × ExprAst) :=
  if ops ≠ 1 then none
  else
    match stack.getLast? with
    | none => none
    | some x =>
        match typeName x with
        | none => none
        | some n => some (stack.dropLast, .symbol n)

end Environment

/-- Variadic-parameter test: the Rust `idast.value.ends_with("...")`
(interp.rs 151), on the characters of the name. -/
def endsDots (v : String) : Bool :=
  match v.data.reverse with
  | '.' :: '.' :: '.' :: _ => true
  | _ => false

/-- `idast.value.slice_to(idast.value.len() - 3)` (interp.rs 153): the
variadic parameter's bound name, without the trailing `...`. -/
def stripDots (v : String) : String :=
  ⟨v.data.dropLast.dropLast.dropLast⟩

/-- The parameter-binding loop of closure application (interp.rs
147-162).  `count` is the loop counter, `idx` the fixed first-argument
index, `len` the (possibly truncated) argument count.  A plain parameter
takes `stack.remove(idx)`; a variadic parameter takes `len - count`
removals collected into an `Array` (when `count > len`, the Rust `uint`
subtraction underflows and `Vec::from_fn` keeps removing until an
`unwrap` fails, so the call fails).  Non-`Ident` parameters fail. -/
def bindParams : List ExprAst → Nat → Nat → Nat → List ExprAst →
    List (String × EnvValue) → Option (List ExprAst × List (String × EnvValue))
  | [], _, _, _, stack, vals => some (stack, vals)
  | p :: rest, count, idx, len, stack, vals =>
      match p with
      | .ident v =>
          if endsDots v then
            if count > len then none
            else
              match removeN (len - count) idx stack with
              | none => none
              | some (collected, stack') =>
                  bindParams rest (count + 1) idx len stack'
                    (frameInsert vals (stripDots v) (.value (.array collected)))
          else
            match vecRemove stack idx with
            | none => none
            | some (x, stack') =>
                bindParams rest (count + 1) idx len stack'
                  (frameInsert vals v (.value x))
      | _ => none

/-! ### The evaluator (`Interpreter::execute_node`, interp.rs 89-186)

The evaluator functions are mutually recursive through closure bodies
(which are data), so they are fuel-indexed: `evaluator fuel` bundles all
of them at fuel level `fuel`, built by structural recursion on the fuel
(so that concrete runs compute inside the kernel); exhausted fuel yields
`none`.  The source-named wrappers `execute_node`, `executeCore`, ...
below project the bundle. -/

/-- The bundle of evaluator functions at one fuel level. -/
structure Evaluator where
  /-- `Interpreter::execute_node` (interp.rs 89-186). -/
  exec : Store → Nat → List ExprAst → ExprAst → Option (Store × List ExprAst)
  /-- The body of `execute_node` before the final trim loop (interp.rs 92-181). -/
  core : Store → Nat → List ExprAst → ExprAst → Option (Store × List ExprAst)
  /-- Special-form operand handling (interp.rs 95-122). -/
  dispatch : Store → Nat → List ExprAst → String → List ExprAst →
    Option (Store × List ExprAst)
  /-- Left-to-right evaluation of a node list (interp.rs 112-120, 165-167). -/
  seq : Store → Nat → List ExprAst → List ExprAst → Option (Store × List ExprAst)
  /-- Application of a user closure (interp.rs 133-168). -/
  applyCode : Store → List ExprAst → List ExprAst → List ExprAst → Nat → Nat →
    Option (Store × List ExprAst)
  /-- Builtin dispatch (`Code(thunk)` branch, interp.rs 127-132). -/
  builtin : Builtin → Store → Nat → List ExprAst → Nat →
    Option (Store × (List ExprAst × ExprAst))
  /-- `Environment::ifexpr` (interp.rs 447-467). -/
  ifexprB : Store → Nat → List ExprAst → Nat →
    Option (Store × (List ExprAst × ExprAst))
  /-- `Environment::define` (interp.rs 306-326). -/
  defineB : Store → Nat → List ExprAst → Nat →
    Option (Store × (List ExprAst × ExprAst))

/-- The evaluator at each fuel level.  At level `fuel + 1` every
recursive call runs at level `fuel`; at level `0` everything is `none`. -/
def evaluator : Nat → Evaluator
  | 0 =>
      { exec := fun _ _ _ _ => none
        core := fun _ _ _ _ => none
        dispatch := fun _ _ _ _ _ => none
        seq := fun _ _ _ _ => none
        applyCode := fun _ _ _ _ _ _ => none
        builtin := fun _ _ _ _ _ => none
        ifexprB := fun _ _ _ _ => none
        defineB := fun _ _ _ _ => none }
  | fuel + 1 =>
      let prev := evaluator fuel
      { -- `Interpreter::execute_node`: run the node, then trim the stack
        -- (interp.rs 182-185) relative to the entry length.
        exec := fun st envId stack node =>
          (prev.core st envId stack node).map fun r =>
            (r.1, trimTo stack.length r.2)
        -- dispatch on the node variant (interp.rs 92-181): an `Sexpr`
        -- evaluates operands per special form, resolves its operator and
        -- applies it; an `Ident` pushes its `Value` binding (builtins are
        -- not first-class); everything else is pushed as a literal.
        core := fun st envId stack node =>
          match node with
          | .sexpr op operands =>
              match prev.dispatch st envId stack op operands with
              | none => none
              | some (st1, stack1) =>
                  match envFind (st1.length + 1) st1 envId op with
                  | none => none
                  | some (.builtin b) =>
                      (prev.builtin b st1 envId stack1 operands.length).map
                        fun r => (r.1, r.2.1 ++ [r.2.2])
                  | some (.value v) =>
                      match v with
                      | .code params body cenv =>
                          prev.applyCode st1 stack1 params body cenv operands.length
                      | _ => none
          | .ident v =>
              match envFind (st.length + 1) st envId v with
              | some (.value val) => some (st, stack ++ [val])
              | some (.builtin _) => none
              | none => none
          | other => some (st, stack ++ [other])
        -- special forms (interp.rs 95-122): `fn` pushes all operands
        -- unevaluated; `if` evaluates the first and pushes the rest;
        -- `define`/`set` push the first and evaluate the rest; everything
        -- else evaluates all operands left to right.
        dispatch := fun st envId stack op operands =>
          match op with
          | "fn" => some (st, stack ++ operands)
          | "if" =>
              -- with zero operands the Rust `slice_from(1)` aborts; the
              -- model reaches the builtin instead, whose arity check
              -- fails, so the overall result is `none` either way
              match operands with
              | [] => some (st, stack)
              | c :: rest =>
                  (prev.exec st envId stack c).map fun r => (r.1, r.2 ++ rest)
          | "define" | "set" =>
              match operands with
              | [] => some (st, stack)
              | first :: rest => prev.seq st envId (stack ++ [first]) rest
          | _ => prev.seq st envId stack operands
        seq := fun st envId stack nodes =>
          match nodes with
          | [] => some (st, stack)
          | n :: rest =>
              match prev.exec st envId stack n with
              | none => none
              | some (st', s') => prev.seq st' envId s' rest
        -- closure application (interp.rs 133-168): discard excess
        -- arguments, bind parameters into a fresh frame whose parent is
        -- the captured environment, evaluate the body in order.
        -- `stack.len() - len` is `uint` subtraction: underflow makes the
        -- first `remove` fail.
        applyCode := fun st stack params body cenv n =>
          let (stack1, len) :=
            if params.length < n then (popN (n - params.length) stack, params.length)
            else (stack, n)
          if stack1.length < len then none
          else
            match bindParams params 0 (stack1.length - len) len stack1 [] with
            | none => none
            | some (stack2, vals) =>
                prev.seq (st ++ [⟨some cenv, vals⟩]) st.length stack2 body
        -- builtin dispatch: the host function yields the updated store,
        -- the consumed stack and the single returned value (which `core`
        -- pushes).  `import` is not modelled: it performs file I/O
        -- (interp.rs 492-499); its environment-merge step is modelled
        -- separately by `frameExtend`.
        builtin := fun b st envId stack ops =>
          match b with
          | .add => (Environment.add stack ops).map fun r => (st, r)
          | .equal => (Environment.equal stack ops).map fun r => (st, r)
          | .print => (Environment.print stack ops).map fun r => (st, r)
          | .ifexpr => prev.ifexprB st envId stack ops
          | .define => prev.defineB st envId stack ops
          | .function => (Environment.function stack ops envId).map fun r => (st, r)
          | .get => (Environment.get stack ops).map fun r => (st, r)
          | .set => Environment.set st envId stack ops
          | .len => (Environment.len stack ops).map fun r => (st, r)
          | .importexpr => none
          | .type_obj => (Environment.type_obj stack ops).map fun r => (st, r)
        -- `Environment::ifexpr` (interp.rs 447-467): 2 or 3 operands; the
        -- condition (removed at `len - ops`) must be a `Boolean`; the true
        -- branch is removed next; with 3 operands the false branch is
        -- popped unconditionally and evaluated only when the condition is
        -- false; the true branch is evaluated only when the condition is
        -- true; the result is the final `pop` — when the false branch is
        -- omitted and the condition is false that pop takes whatever was
        -- left below the operands.
        ifexprB := fun st envId stack ops =>
          if ops < 2 || ops > 3 then none
          else
            match rustRemoveSub stack stack.length ops with
            | some (.boolean cond, s1) =>
                -- the true branch sits at `len - ops + 1` where `len` is
                -- re-read after the first removal; the `uint` expression
                -- wraps, and a `len - ops` underflow is cancelled by the
                -- `+ 1` exactly when `len + 1 = ops`, so the index is
                -- `len + 1 - ops` whenever `len + 1 ≥ ops` and far out of
                -- range (a failed remove) otherwise
                match (if s1.length + 1 < ops then none
                       else vecRemove s1 (s1.length + 1 - ops)) with
                | none => none
                | some (ontrue, s2) =>
                    let falseStep : Option (Store × List ExprAst) :=
                      if 0 < ops - 2 then
                        match s2.getLast? with
                        | none => none
                        | some onfalse =>
                            if cond then some (st, s2.dropLast)
                            else prev.exec st envId s2.dropLast onfalse
                      else some (st, s2)
                    match falseStep with
                    | none => none
                    | some (stA, sA) =>
                        match (if cond then prev.exec stA envId sA ontrue
                               else some (stA, sA)) with
                        | none => none
                        | some (stB, sB) =>
                            match sB.getLast? with
                            | none => none
                            | some res => some (stB, (sB.dropLast, res))
            | some _ => none
            | none => none
        -- `Environment::define` (interp.rs 306-326): exactly two
        -- operands; pop the value (evaluating it first if it is still an
        -- `Sexpr`), pop the name (must be an `Ident`), insert into the
        -- current frame, return the value.
        defineB := fun st envId stack ops =>
          if ops ≠ 2 then none
          else
            match stack.getLast? with
            | none => none
            | some top =>
                let s1 := stack.dropLast
                let valStep : Option (Store × List ExprAst × ExprAst) :=
                  match top with
                  | .sexpr o os =>
                      match prev.exec st envId s1 (.sexpr o os) with
                      | none => none
                      | some (st', s2) =>
                          match s2.getLast? with
                          | none => none
                          | some v => some (st', s2.dropLast, v)
                  | other => some (st, s1, other)
                match valStep with
                | none => none
                | some (st', s2, valast) =>
                    match s2.getLast? with
                    | some (.ident name) =>
                        some (defineInsert st' envId name (.value valast),
                              (s2.dropLast, valast))
                    | _ => none }

/-- `Interpreter::execute_node` (interp.rs 89-186) at a given fuel. -/
def execute_node (fuel : Nat) (st : Store) (envId : Nat)
    (stack : List ExprAst) (node : ExprAst) : Option (Store × List ExprAst) :=
  (evaluator fuel).exec st envId stack node

/-- The body of `execute_node` before the final trim (interp.rs 92-181). -/
def executeCore (fuel : Nat) (st : Store) (envId : Nat)
    (stack : List ExprAst) (node : ExprAst) : Option (Store × List ExprAst) :=
  (evaluator fuel).core st envId stack node

/-- Special-form operand handling (interp.rs 95-122). -/
def specialDispatch (fuel : Nat) (st : Store) (envId : Nat)
    (stack : List ExprAst) (op : String) (operands : List ExprAst) :
    Option (Store × List ExprAst) :=
  (evaluator fuel).dispatch st envId stack op operands

/-- Sequential evaluation of a node list (interp.rs 112-120, 165-167). -/
def execList (fuel : Nat) (st : Store) (envId : Nat)
    (stack : List ExprAst) (nodes : List ExprAst) : Option (Store × List ExprAst) :=
  (evaluator fuel).seq st envId stack nodes

/-- Closure application (`Value(Code)` branch, interp.rs 133-168). -/
def applyClosure (fuel : Nat) (st : Store) (stack : List ExprAst)
    (params body : List ExprAst) (cenv : Nat) (n : Nat) :
    Option (Store × List ExprAst) :=
  (evaluator fuel).applyCode st stack params body cenv n

/-- Builtin dispatch (interp.rs 127-132). -/
def runBuiltin (fuel : Nat) (b : Builtin) (st : Store) (envId : Nat)
    (stack : List ExprAst) (ops : Nat) :
    Option (Store × (List ExprAst × ExprAst)) :=
  (evaluator fuel).builtin b st envId stack ops

/-- `Environment::ifexpr` (interp.rs 447-467) at a given fuel. -/
def Environment.ifexpr (fuel : Nat) (st : Store) (envId : Nat)
    (stack : List ExprAst) (ops : Nat) :
    Option (Store × (List ExprAst × ExprAst)) :=
  (evaluator fuel).ifexprB st envId stack ops

/-- `Environment::define` (interp.rs 306-326) at a given fuel. -/
def Environment.define (fuel : Nat) (st : Store) (envId : Nat)
    (stack : List ExprAst) (ops : Nat) :
    Option (Store × (List ExprAst × ExprAst)) :=
  (evaluator fuel).defineB st envId stack ops

/-- One-step unfolding: `execute_node` at positive fuel is the core
evaluation followed by the trim loop. -/
theorem execute_node_succ (fuel : Nat) (st : Store) (envId : Nat)
    (stack : List ExprAst) (node : ExprAst) :
    execute_node (fuel + 1) st envId stack node =
      (executeCore fuel st envId stack node).map fun r =>
        (r.1, trimTo stack.length r.2) := rfl

/-! ### Module import (`Environment::importexpr`, interp.rs 469-507)

`import` reads a module file, runs it in a fresh interpreter whose
`FILE` is set to the resolved path, and merges the module's global
bindings into the importing environment's current frame with
`env.borrow_mut().values.extend(...)` (interp.rs 500).  The file I/O is
outside the embedding; the merge step is modelled here.  `HashMap`
iteration order is unspecified, but module keys are distinct, so the
fold below is order-independent as a map. -/

/-- `values.extend(module.values)` (interp.rs 500): insert every module
binding into the current frame, overwriting same-named bindings. -/
def frameExtend (cur modv : List (String × EnvValue)) : List (String × EnvValue) :=
  modv.foldl (fun acc kv => frameInsert acc kv.1 kv.2) cur

/-! ### Parser (`src/parser.rs`)

The parser state carries the source (`code`), a byte offset (`pos`,
modelled as a character index — all inputs in the theorems are ASCII,
where the two coincide) and 1-based `line`/`column`.  Each parse
function returns its `Result` together with the state it left behind
(success and failure both move the state; the backtracking combinator
restores it explicitly).  `code.char_at(pos)` panics when `pos` is out
of range in Rust; the embedding totalizes it with a space, which every
reachable call site excludes by a bounds check first (the one exception,
`parse_integer_val`'s error path after a consumed sign at end of input,
is a genuine crash in the source and is unreachable in the theorems
below). -/

structure PState where
  code : List Char
  pos : Nat
  line : Nat
  column : Nat
  deriving Repr

/-- `ParseError` (parser.rs 54-58). -/
structure ParseError where
  line : Nat
  column : Nat
  desc : String
  deriving Repr, DecidableEq

/-- `code.char_at(self.pos)` (totalized; see the section comment). -/
def charAt (st : PState) : Char :=
  st.code.getD st.pos ' '

/-- `Parser::inc_pos_col` (parser.rs 412-416). -/
def inc_pos_col (st : PState) : PState :=
  { st with column := st.column + 1, pos := st.pos + 1 }

/-- `Parser::add_line` (parser.rs 406-410). -/
def add_line (st : PState) : PState :=
  { st with line := st.line + 1, column := 1 }

/-- `Parser::eof_error` (parser.rs 418-421). -/
def eof_error (st : PState) : ParseError :=
  ⟨st.line, st.column, "end of file"⟩

/-- `Parser::unexpected_error` (parser.rs 428-431). -/
def unexpected_error (st : PState) (expect found : String) : ParseError :=
  ⟨st.line, st.column, "expected " ++ expect ++ " but found " ++ found⟩

/-- A found-character rendered as `'c'` (the `format!("'{}'", ...)`
arguments of `unexpected_error` call sites). -/
def quoteChar (c : Char) : String :=
  "'" ++ String.mk [c] ++ "'"

/-- `Char::is_digit` of the source's Rust: a decimal ASCII digit. -/
def isDigitCh (c : Char) : Bool :=
  '0' ≤ c && c ≤ '9'

/-- `Parser::is_ident_char` (parser.rs 384-391). -/
def is_ident_char (c : Char) : Bool :=
  if isDigitCh c || c.isWhitespace || c = '(' || c = ')' || c = '[' || c = ']'
      || c = '\'' || c = '"' || c = ';' then
    false
  else
    true

/-- The loop of `Parser::skip_whitespace` (parser.rs 393-404); fuel-led
(any fuel `≥ code.length - pos` is enough, the loop advances `pos` every
iteration). -/
def skipWsLoop : Nat → PState → PState
  | 0, st => st
  | fuel + 1, st =>
      if st.pos < st.code.length && (charAt st).isWhitespace then
        skipWsLoop fuel
          (if charAt st = '\n' then { add_line st with pos := st.pos + 1 }
           else { st with column := st.column + 1, pos := st.pos + 1 })
      else st

/-- `Parser::skip_whitespace` (parser.rs 393-404). -/
def skip_whitespace (st : PState) : PState :=
  skipWsLoop (st.code.length - st.pos + 1) st

/-- The accumulation loop of `Parser::parse_ident_stack`
(parser.rs 258-268): consume ident characters. -/
def identLoop : Nat → PState → List Char → List Char × PState
  | 0, st, acc => (acc, st)
  | fuel + 1, st, acc =>
      let ch := charAt st
      if ¬ is_ident_char ch then (acc, st)
      else
        let st' := inc_pos_col st
        if st'.pos = st'.code.length then (acc ++ [ch], st')
        else identLoop fuel st' (acc ++ [ch])

/-- `Parser::parse_ident_stack` (parser.rs 251-279): the raw identifier
string. -/
def parse_ident_stack (st : PState) : Except ParseError String × PState :=
  let st := skip_whitespace st
  if st.pos = st.code.length then (.error (eof_error st), st)
  else
    let (chars, st') := identLoop (st.code.length - st.pos + 1) st []
    if chars.length = 0 then
      if st'.pos = st'.code.length then (.error (eof_error st'), st')
      else (.error (unexpected_error st' "ident" (quoteChar (charAt st'))), st')
    else (.ok (String.mk chars), st')

/-- `Parser::parse_ident` (parser.rs 246-249). -/
def parse_ident (st : PState) : Except ParseError ExprAst × PState :=
  match parse_ident_stack st with
  | (.ok v, st') => (.ok (.ident v), st')
  | (.error f, st') => (.error f, st')

/-- The digit loop of `Parser::parse_integer_val` (parser.rs 161-165):
`number = number * 10 + digit` in wrapping `i64`. -/
def digitsLoop : Nat → PState → Int → Nat → Int × Nat × PState
  | 0, st, number, digits => (number, digits, st)
  | fuel + 1, st, number, digits =>
      if st.pos < st.code.length && isDigitCh (charAt st) then
        digitsLoop fuel (inc_pos_col st)
          (wrap64 (number * 10 + ((charAt st).toNat - '0'.toNat : Nat))) (digits + 1)
      else (number, digits, st)

/-- `Parser::parse_integer_val` (parser.rs 146-171): optional leading
minus, then one or more digits; yields the value and the digit count. -/
def parse_integer_val (st : PState) : Except ParseError (Int × Nat) × PState :=
  let st := skip_whitespace st
  if st.pos = st.code.length then (.error (eof_error st), st)
  else
    let (neg, st1) := if charAt st = '-' then (true, inc_pos_col st) else (false, st)
    let (number, digits, st2) := digitsLoop (st1.code.length - st1.pos + 1) st1 0 0
    if digits = 0 then
      (.error (unexpected_error st2 "integer" (quoteChar (charAt st2))), st2)
    else
      (.ok (if neg then wrap64 (-number) else number, digits), st2)

/-- `Parser::parse_integer` (parser.rs 142-144). -/
def parse_integer (st : PState) : Except ParseError ExprAst × PState :=
  match parse_integer_val st with
  | (.ok p, st') => (.ok (.integer p.1), st')
  | (.error f, st') => (.error f, st')

/-- `Parser::parse_float` (parser.rs 173-189): integer part, `.`, digit
run; the value is computed in `f64` as
`front + back / pow(10, digits)` (the power in wrapping `uint`). -/
def parse_float (st : PState) : Except ParseError ExprAst × PState :=
  match parse_integer_val st with
  | (.error f, st') => (.error f, st')
  | (.ok front, st1) =>
      if st1.pos + 1 ≥ st1.code.length then (.error (eof_error st1), st1)
      else if charAt st1 ≠ '.' then
        (.error (unexpected_error st1 "'.'" (quoteChar (charAt st1))), st1)
      else
        let st2 := inc_pos_col st1
        if ¬ isDigitCh (charAt st2) then
          (.error (unexpected_error st2 "float" (quoteChar (charAt st2))), st2)
        else
          match parse_integer_val st2 with
          | (.error f, st') => (.error f, st')
          | (.ok back, st3) =>
              (.ok (.float (F.add (F.ofInt front.1)
                 (F.div (F.ofInt back.1) (F.ofInt ((10 ^ back.2 : Int) % 2 ^ 64))))), st3)

/-- The content loop of `Parser::parse_string` (parser.rs 289-297):
consume while the character is not `"` or the immediately preceding
character in the source is a backslash (even a backslash that is itself
escaped content — the loop looks only one character back). -/
def stringLoop : Nat → PState → List Char → List Char × PState
  | 0, st, buf => (buf, st)
  | fuel + 1, st, buf =>
      if st.pos < st.code.length &&
          (charAt st ≠ '"' || st.code.getD (st.pos - 1) ' ' = '\\') then
        let c := charAt st
        let st' :=
          if c = '\n' then { add_line st with pos := st.pos + 1 }
          else { st with column := st.column + 1, pos := st.pos + 1 }
        stringLoop fuel st' (buf ++ [c])
      else (buf, st)

/-- `Parser::parse_string` (parser.rs 281-307). -/
def parse_string (st : PState) : Except ParseError ExprAst × PState :=
  let st := skip_whitespace st
  if st.pos = st.code.length then (.error (eof_error st), st)
  else if charAt st = '"' then
    let st1 := inc_pos_col st
    let (buf, st2) := stringLoop (st1.code.length - st1.pos + 1) st1 []
    if st2.pos = st2.code.length then (.error (eof_error st2), st2)
    else (.ok (.str (String.mk buf)), inc_pos_col st2)
  else (.error (unexpected_error st "\x22" (quoteChar (charAt st))), st)

/-- The alphabetic-run loop of `parse_boolean`/`parse_nil`
(parser.rs 316-319, 336-339). -/
def alphaLoop : Nat → PState → List Char → List Char × PState
  | 0, st, buf => (buf, st)
  | fuel + 1, st, buf =>
      if st.pos < st.code.length && (charAt st).isAlpha then
        alphaLoop fuel (inc_pos_col st) (buf ++ [charAt st])
      else (buf, st)

/-- `Parser::parse_boolean` (parser.rs 309-327). -/
def parse_boolean (st : PState) : Except ParseError ExprAst × PState :=
  let st := skip_whitespace st
  if st.pos = st.code.length then (.error (eof_error st), st)
  else
    let (buf, st') := alphaLoop (st.code.length - st.pos + 1) st []
    let s := String.mk buf
    if s = "true" then (.ok (.boolean true), st')
    else if s = "false" then (.ok (.boolean false), st')
    else (.error (unexpected_error st'
      "\x22true\x22 or \x22false\x22" ("\x22" ++ s ++ "\x22")), st')

/-- `Parser::parse_nil` (parser.rs 329-347). -/
def parse_nil (st : PState) : Except ParseError ExprAst × PState :=
  let st := skip_whitespace st
  if st.pos = st.code.length then (.error (eof_error st), st)
  else
    let (buf, st') := alphaLoop (st.code.length - st.pos + 1) st []
    let s := String.mk buf
    if s = "nil" then (.ok .nil, st')
    else (.error (unexpected_error st' "\x22nil\x22" ("\x22" ++ s ++ "\x22")), st')

/-- `Parser::parse_symbol` (parser.rs 349-364): a quote followed by an
identifier; note the source inspects `char_at(pos + 1)` before checking
the quote itself, and bumps `column` on the non-ident-char error path. -/
def parse_symbol (st : PState) : Except ParseError ExprAst × PState :=
  let st := skip_whitespace st
  if st.pos + 1 ≥ st.code.length then (.error (eof_error st), st)
  else if ¬ is_ident_char (st.code.getD (st.pos + 1) ' ') then
    let st' := { st with column := st.column + 1 }
    (.error (unexpected_error st' "alphabetic character"
      (quoteChar (st.code.getD (st.pos + 1) ' '))), st')
  else if charAt st = '\'' then
    match parse_ident_stack (inc_pos_col st) with
    | (.ok v, st') => (.ok (.symbol v), st')
    | (.error f, st') => (.error f, st')
  else (.error (unexpected_error st "\x22'\x22" (quoteChar (charAt st))), st)

/-- The comment-content loop of `Parser::parse_comment`
(parser.rs 373-377). -/
def commentLoop : Nat → PState → List Char → List Char × PState
  | 0, st, buf => (buf, st)
  | fuel + 1, st, buf =>
      if st.pos < st.code.length && charAt st ≠ '\n' then
        commentLoop fuel (inc_pos_col st) (buf ++ [charAt st])
      else (buf, st)

/-- `Parser::parse_comment` (parser.rs 366-382). -/
def parse_comment (st : PState) : Except ParseError ExprAst × PState :=
  let st := skip_whitespace st
  if st.pos = st.code.length then (.error (eof_error st), st)
  else if charAt st = ';' then
    let (buf, st') := commentLoop (st.code.length - st.pos + 1) (inc_pos_col st) []
    (.ok (.comment (String.mk buf)), st')
  else (.error (unexpected_error st "';'" (quoteChar (charAt st))), st)

/-- The ordered-alternative retry chain of the `parse_subexprs!` macro
(parser.rs 4-45), applied to the alternatives after the first: before
each attempt but the last, `(pos, line, column)` are restored to the
snapshot; the last alternative runs on whatever state the previous
failure left (the macro's final arm has no restore).  `largest` is the
error of the longest-consuming failed attempt so far (`largeval`
characters); ties keep the earlier error, and the final comparison uses
the last attempt's end position. -/
def tryAlts : List (PState → Except ParseError ExprAst × PState) →
    PState → Nat × Nat × Nat → ParseError → Nat →
    Except ParseError ExprAst × PState
  | [], st, _, largest, _ => (.error largest, st)
  | [last], st, old, largest, largeval =>
      match last st with
      | (.ok m, st') => (.ok m, st')
      | (.error f, st') =>
          (.error (if st'.pos - old.1 > largeval then f else largest), st')
  | alt :: rest, st, old, largest, largeval =>
      let st2 : PState := ⟨st.code, old.1, old.2.1, old.2.2⟩
      match alt st2 with
      | (.ok m, st') => (.ok m, st')
      | (.error f, st3) =>
          let ldiff := st3.pos - old.1
          if ldiff > largeval then tryAlts rest st3 old f ldiff
          else tryAlts rest st3 old largest largeval

/-- The bundle of mutually recursive parser functions at one fuel level
(`parse_expr` and the bracketed forms recurse through it). -/
structure ParserFns where
  /-- `Parser::parse_expr` (parser.rs 111-114). -/
  expr : PState → Except ParseError ExprAst × PState
  /-- `Parser::parse_sexpr` (parser.rs 116-140). -/
  sexprP : PState → Except ParseError ExprAst × PState
  /-- `Parser::parse_list` (parser.rs 216-244). -/
  listP : PState → Except ParseError ExprAst × PState
  /-- `Parser::parse_array` (parser.rs 191-214). -/
  arrayP : PState → Except ParseError ExprAst × PState
  /-- The shared shape of the three collect-until-close loops
  (parser.rs 125-135, 199-209, 226-236); the close character is `)` for
  s-expressions and lists, `]` for arrays. -/
  items : Char → PState → List ExprAst → Except ParseError (List ExprAst) × PState
  /-- The loop of `Parser::parse` (parser.rs 94-109); a failed
  expression aborts the whole parse (`fail!`), modelled as `none`. -/
  rootLoop : PState → List ExprAst → Option (List ExprAst × PState)

/-- The parser bundle at each fuel level; level `fuel + 1` recurses into
level `fuel`, level `0` fails. -/
def parserAt : Nat → ParserFns
  | 0 =>
      { expr := fun st => (.error (eof_error st), st)
        sexprP := fun st => (.error (eof_error st), st)
        listP := fun st => (.error (eof_error st), st)
        arrayP := fun st => (.error (eof_error st), st)
        items := fun _ st _ => (.error (eof_error st), st)
        rootLoop := fun _ _ => none }
  | fuel + 1 =>
      let prev := parserAt fuel
      { -- `parse_expr`: the fixed alternative order sexpr, float,
        -- integer, boolean, nil, ident, string, symbol, list, array,
        -- comment (parser.rs 112)
        expr := fun st =>
          let old := (st.pos, st.line, st.column)
          match prev.sexprP st with
          | (.ok m, st') => (.ok m, st')
          | (.error f, st1) =>
              tryAlts
                [parse_float, parse_integer, parse_boolean, parse_nil,
                 parse_ident, parse_string, parse_symbol, prev.listP,
                 prev.arrayP, parse_comment]
                st1 old f (st1.pos - st.pos)
        sexprP := fun st =>
          let st := skip_whitespace st
          if st.pos = st.code.length then (.error (eof_error st), st)
          else if charAt st = '(' then
            match parse_ident_stack (inc_pos_col st) with
            | (.error f, st') => (.error f, st')
            | (.ok op, st2) =>
                match prev.items ')' st2 [] with
                | (.error f, st') => (.error f, st')
                | (.ok operands, st') => (.ok (.sexpr op operands), st')
          else (.error (unexpected_error st "'('" (quoteChar (charAt st))), st)
        listP := fun st =>
          let st := skip_whitespace st
          if st.pos + 2 ≥ st.code.length then (.error (eof_error st), st)
          else if charAt st = '\'' then
            let st1 := inc_pos_col st
            if charAt st1 = '(' then
              match prev.items ')' (inc_pos_col st1) [] with
              | (.error f, st') => (.error f, st')
              | (.ok elems, st') => (.ok (.list elems), st')
            else (.error (unexpected_error st1 "'('" (quoteChar (charAt st1))), st1)
          else (.error (unexpected_error st "'''" (quoteChar (charAt st))), st)
        arrayP := fun st =>
          let st := skip_whitespace st
          if st.pos + 1 ≥ st.code.length then (.error (eof_error st), st)
          else if charAt st = '[' then
            match prev.items ']' (inc_pos_col st) [] with
            | (.error f, st') => (.error f, st')
            | (.ok elems, st') => (.ok (.array elems), st')
          else (.error (unexpected_error st "'['" (quoteChar (charAt st))), st)
        items := fun close st acc =>
          let st := skip_whitespace st
          if st.pos = st.code.length then (.error (eof_error st), st)
          else if charAt st = close then (.ok acc, inc_pos_col st)
          else
            match prev.expr st with
            | (.error f, st') => (.error f, st')
            | (.ok e, st') => prev.items close st' (acc ++ [e])
        rootLoop := fun st acc =>
          if st.pos < st.code.length then
            match prev.expr st with
            | (.error _, _) => none
            | (.ok e, st') => prev.rootLoop (skip_whitespace st') (acc ++ [e])
          else some (acc, st) }

/-- `Parser::parse_expr` (parser.rs 111-114) at a given fuel. -/
def parse_expr (fuel : Nat) (st : PState) : Except ParseError ExprAst × PState :=
  (parserAt fuel).expr st

/-- `Parser::parse_sexpr` (parser.rs 116-140) at a given fuel. -/
def parse_sexpr (fuel : Nat) (st : PState) : Except ParseError ExprAst × PState :=
  (parserAt fuel).sexprP st

/-- `Parser::parse` (parser.rs 94-109): skip leading whitespace, parse
expressions until the end of input, collect them under `Root`; a parse
error is fatal (`fail!`). -/
def parse (fuel : Nat) (code : List Char) : Option ExprAst :=
  ((parserAt fuel).rootLoop (skip_whitespace ⟨code, 0, 1, 1⟩) []).map
    fun r => .root r.1

/-! ### Auxiliary specification devices for the theorems -/

/-- The first frame, walking parent-ward from `id`, whose mapping holds
`key` (a specification device used to state the `Environment::replace`
frame-effect theorem; same fuel convention as `envFind`). -/
def firstHolder : Nat → Store → Nat → String → Option Nat
  | 0, _, _, _ => none
  | fuel + 1, st, id, key =>
      match st.get? id with
      | none => none
      | some fr =>
          if (lookupName fr.values key).isSome then some id
          else
            match fr.parent with
            | some p => firstHolder fuel st p key
            | none => none

/-- The description of a parse result's error, if any (a projection used
to state error-shape theorems). -/
def errDesc : Except ParseError ExprAst × PState → Option String
  | (.error e, _) => some e.desc
  | (.ok _, _) => none

/-! ### Helper lemmas -/

theorem trimLoop_length (n : Nat) : ∀ (s : List ExprAst),
    (trimLoop n s).length = s.length - n := by
  induction n with
  | zero => intro s; rfl
  | succ n ih =>
      intro s
      rw [trimLoop, ih s.dropLast, List.length_dropLast]
      omega

theorem trimTo_length_le (k : Nat) (s : List ExprAst) :
    (trimTo k s).length ≤ k + 1 := by
  unfold trimTo
  rw [trimLoop_length]
  omega

theorem vecRemove_append : ∀ (base : List ExprAst) (x : ExprAst) (rest : List ExprAst),
    vecRemove (base ++ x :: rest) base.length = some (x, base ++ rest)
  | [], x, rest => rfl
  | b :: bs, x, rest => by
      have ih := vecRemove_append bs x rest
      unfold vecRemove at ih ⊢
      simp only [List.cons_append, List.get?, List.eraseIdx, List.length_cons]
      match h : (bs ++ x :: rest).get? bs.length, ih with
      | some y, ih => simp at ih; simp [ih.1, ih.2]
      | none, ih => simp at ih

theorem lookupName_frameInsert (l : List (String × EnvValue)) (k : String)
    (v : EnvValue) (key : String) :
    lookupName (frameInsert l k v) key =
      if k = key then some v else lookupName l key := by
  induction l with
  | nil =>
      by_cases h : k = key <;> simp [frameInsert, lookupName, h]
  | cons p rest ih =>
      obtain ⟨k2, w⟩ := p
      by_cases hk : k2 = k
      · subst hk
        by_cases h : k2 = key <;> simp [frameInsert, lookupName, h]
      · by_cases h : k2 = key
        · subst h
          have hne : ¬ k = k2 := fun hh => hk hh.symm
          simp [frameInsert, hk, lookupName, hne]
        · simp [frameInsert, hk, lookupName, h, ih]

/-- Once the `decimal` flag of `Environment::add` is set, it stays set. -/
theorem addLoop_dec_mono : ∀ (k : Nat) (stack : List ExprAst) (val : F)
    (s2 : List ExprAst) (v2 : F) (d2 : Bool),
    Environment.addLoop k stack val true = some (s2, v2, d2) → d2 = true
  | 0, stack, val, s2, v2, d2, h => by
      simp only [Environment.addLoop, Option.some.injEq, Prod.mk.injEq] at h
      exact h.2.2.symm
  | k + 1, stack, val, s2, v2, d2, h => by
      simp only [Environment.addLoop] at h
      cases htop : stack.getLast? with
      | none => rw [htop] at h; exact absurd h (by simp)
      | some x =>
          rw [htop] at h
          cases x <;> simp only at h <;>
            first
            | exact absurd h (by simp)
            | exact addLoop_dec_mono k stack.dropLast _ _ _ _ h

/-- Popping only `Integer` operands never sets the `decimal` flag. -/
theorem addLoop_all_int : ∀ (k : Nat) (stack : List ExprAst) (val : F)
    (s2 : List ExprAst) (v2 : F) (d2 : Bool),
    (∀ x ∈ stack, ∃ n, x = ExprAst.integer n) →
    Environment.addLoop k stack val false = some (s2, v2, d2) → d2 = false
  | 0, stack, val, s2, v2, d2, _, h => by
      simp only [Environment.addLoop, Option.some.injEq, Prod.mk.injEq] at h
      exact h.2.2.symm
  | k + 1, stack, val, s2, v2, d2, hall, h => by
      simp only [Environment.addLoop] at h
      cases htop : stack.getLast? with
      | none => rw [htop] at h; exact absurd h (by simp)
      | some x =>
          rw [htop] at h
          have hmem : x ∈ stack := List.mem_of_mem_getLast? htop
          obtain ⟨n, hn⟩ := hall x hmem
          subst hn
          simp only at h
          exact addLoop_all_int k stack.dropLast _ _ _ _
            (fun y hy => hall y (List.dropLast_subset _ hy)) h

/-- Popping exactly the operand window `opnds` off `base ++ opnds`:
when every operand is an `Integer`, the `decimal` flag is unchanged. -/
theorem addLoop_window_int : ∀ (opnds base : List ExprAst) (val : F)
    (dec : Bool) (s2 : List ExprAst) (v2 : F) (d2 : Bool),
    (∀ x ∈ opnds, ∃ n, x = ExprAst.integer n) →
    Environment.addLoop opnds.length (base ++ opnds) val dec
      = some (s2, v2, d2) →
    d2 = dec := by
  intro opnds
  induction opnds using List.reverseRecOn with
  | nil =>
      intro base val dec s2 v2 d2 _ h
      simp only [List.length_nil, Environment.addLoop, Option.some.injEq,
        Prod.mk.injEq] at h
      exact h.2.2.symm
  | append_singleton l a ih =>
      intro base val dec s2 v2 d2 hall h
      obtain ⟨n, hn⟩ := hall a (by simp)
      subst hn
      rw [List.length_append, List.length_singleton,
        show base ++ (l ++ [ExprAst.integer n])
          = (base ++ l) ++ [ExprAst.integer n] by simp] at h
      simp only [Environment.addLoop, List.getLast?_concat,
        List.dropLast_concat] at h
      exact ih base _ dec s2 v2 d2 (fun y hy => hall y (by simp [hy])) h

/-- Popping exactly the operand window `opnds` off `base ++ opnds`:
a `Float` anywhere among the operands sets the `decimal` flag. -/
theorem addLoop_window_float : ∀ (opnds base : List ExprAst) (val : F)
    (dec : Bool) (s2 : List ExprAst) (v2 : F) (d2 : Bool) (f : F),
    ExprAst.float f ∈ opnds →
    Environment.addLoop opnds.length (base ++ opnds) val dec
      = some (s2, v2, d2) →
    d2 = true := by
  intro opnds
  induction opnds using List.reverseRecOn with
  | nil =>
      intro base val dec s2 v2 d2 f hf _
      simp at hf
  | append_singleton l a ih =>
      intro base val dec s2 v2 d2 f hf h
      rw [List.length_append, List.length_singleton,
        show base ++ (l ++ [a]) = (base ++ l) ++ [a] by simp] at h
      simp only [Environment.addLoop, List.getLast?_concat] at h
      cases a <;> simp only [List.dropLast_concat] at h <;>
        first
        | exact absurd h (by simp)
        | exact ih base _ dec s2 v2 d2 f
            (by
              rcases List.mem_append.mp hf with h1 | h1
              · exact h1
              · exact absurd h1 (by simp)) h
        | exact addLoop_dec_mono l.length _ _ s2 v2 d2 h

/-- One-step unfolding of `Environment.ifexpr` at positive fuel. -/
theorem ifexpr_succ (fuel : Nat) (st : Store) (envId : Nat)
    (stack : List ExprAst) (ops : Nat) :
    Environment.ifexpr (fuel + 1) st envId stack ops =
      (if ops < 2 || ops > 3 then none
       else
         match rustRemoveSub stack stack.length ops with
         | some (.boolean cond, s1) =>
             match (if s1.length + 1 < ops then none
                    else vecRemove s1 (s1.length + 1 - ops)) with
             | none => none
             | some (ontrue, s2) =>
                 let falseStep : Option (Store × List ExprAst) :=
                   if 0 < ops - 2 then
                     match s2.getLast? with
                     | none => none
                     | some onfalse =>
                         if cond then some (st, s2.dropLast)
                         else execute_node fuel st envId s2.dropLast onfalse
                   else some (st, s2)
                 match falseStep with
                 | none => none
                 | some (stA, sA) =>
                     match (if cond then execute_node fuel stA envId sA ontrue
                            else some (stA, sA)) with
                     | none => none
                     | some (stB, sB) =>
                         match sB.getLast? with
                         | none => none
                         | some res => some (stB, (sB.dropLast, res))
         | some _ => none
         | none => none) := rfl

/-- `Environment::ifexpr` with condition, true branch and false branch
above an arbitrary base stack: a `Boolean` condition selects exactly one
branch for evaluation (against the base stack), the other branch is
discarded unevaluated, and the call result is popped from the selected
branch's evaluation; a non-`Boolean` condition fails. -/
theorem ifexpr_three_operands (fuel : Nat) (st : Store) (envId : Nat)
    (base : List ExprAst) (c t e : ExprAst) :
    Environment.ifexpr (fuel + 1) st envId (base ++ [c, t, e]) 3 =
      (match c with
       | .boolean true =>
           (execute_node fuel st envId base t).bind fun r =>
             (r.2.getLast?).map fun res => (r.1, (r.2.dropLast, res))
       | .boolean false =>
           (execute_node fuel st envId base e).bind fun r =>
             (r.2.getLast?).map fun res => (r.1, (r.2.dropLast, res))
       | _ => none) := by
  have h1 : rustRemoveSub (base ++ [c, t, e]) (base ++ [c, t, e]).length 3
      = some (c, base ++ [t, e]) := by
    unfold rustRemoveSub
    rw [if_neg (by simp)]
    have hi : (base ++ [c, t, e]).length - 3 = base.length := by simp
    rw [hi]
    exact vecRemove_append base c [t, e]
  rw [ifexpr_succ, if_neg (by decide), h1]
  have harith : ∀ n : Nat, (n + 2 + 1 < 3) = False := fun n => eq_false (by omega)
  cases c with
  | boolean b =>
      cases b with
      | true =>
          cases hX : execute_node fuel st envId base t with
          | none =>
              simp [vecRemove_append, List.getLast?_concat,
                List.dropLast_concat, hX, harith]
          | some r =>
              obtain ⟨stB, sB⟩ := r
              cases hL : sB.getLast? <;>
                simp [vecRemove_append, List.getLast?_concat,
                  List.dropLast_concat, hX, hL, harith]
      | false =>
          cases hX : execute_node fuel st envId base e with
          | none =>
              simp [vecRemove_append, List.getLast?_concat,
                List.dropLast_concat, hX, harith]
          | some r =>
              obtain ⟨stB, sB⟩ := r
              cases hL : sB.getLast? <;>
                simp [vecRemove_append, List.getLast?_concat,
                  List.dropLast_concat, hX, hL, harith]
  | root xs => rfl
  | sexpr o xs => rfl
  | str v => rfl
  | list xs => rfl
  | array xs => rfl
  | pointer p => rfl
  | ident v => rfl
  | symbol v => rfl
  | integer n => rfl
  | float f => rfl
  | nil => rfl
  | comment v => rfl
  | code ps bs ev => rfl

/-- `Environment::ifexpr` with only a condition and a true branch above
an arbitrary base stack: a true `Boolean` condition evaluates the branch
and pops its result; a false one evaluates nothing and pops whatever the
base stack held below the operands; a non-`Boolean` condition fails. -/
theorem ifexpr_two_operands (fuel : Nat) (st : Store) (envId : Nat)
    (base : List ExprAst) (c t : ExprAst) :
    Environment.ifexpr (fuel + 1) st envId (base ++ [c, t]) 2 =
      (match c with
       | .boolean true =>
           (execute_node fuel st envId base t).bind fun r =>
             (r.2.getLast?).map fun res => (r.1, (r.2.dropLast, res))
       | .boolean false =>
           (base.getLast?).map fun res => (st, (base.dropLast, res))
       | _ => none) := by
  have h1 : rustRemoveSub (base ++ [c, t]) (base ++ [c, t]).length 2
      = some (c, base ++ [t]) := by
    unfold rustRemoveSub
    rw [if_neg (by simp)]
    have hi : (base ++ [c, t]).length - 2 = base.length := by simp
    rw [hi]
    exact vecRemove_append base c [t]
  rw [ifexpr_succ, if_neg (by decide), h1]
  have harith : ∀ n : Nat, (n + 1 + 1 < 2) = False := fun n => eq_false (by omega)
  cases c with
  | boolean b =>
      cases b with
      | true =>
          cases hX : execute_node fuel st envId base t with
          | none => simp [vecRemove_append, hX, harith]
          | some r =>
              obtain ⟨stB, sB⟩ := r
              cases hL : sB.getLast? <;> simp [vecRemove_append, hX, hL, harith]
      | false =>
          cases hL : base.getLast? <;> simp [vecRemove_append, hL, harith]
  | root xs => rfl
  | sexpr o xs => rfl
  | str v => rfl
  | list xs => rfl
  | array xs => rfl
  | pointer p => rfl
  | ident v => rfl
  | symbol v => rfl
  | integer n => rfl
  | float f => rfl
  | nil => rfl
  | comment v => rfl
  | code ps bs ev => rfl

/-! ### Claim theorems -/

/-- C1: the claim states that a closure call's result is the value of the
LAST body expression.  On the code it is not: the stack-trim loop
(interp.rs 182-185) removes from the TOP of the stack, so after a body of
several value-producing expressions the surviving value is the FIRST
one.  Running `(define f (fn [x] 1 2))` and then `(f 0)` (stack cleared
between top-level forms, as in `Interpreter::execute`) leaves
`Integer(1)` — not the last body expression's `Integer(2)` — as the call
result. -/
theorem C1_multi_expression_body_returns_first_value :
    ((execute_node 50 store0 0 []
        (.sexpr "define" [.ident "f",
          .sexpr "fn" [.array [.ident "x"], .integer 1, .integer 2]])).bind
      fun r => execute_node 50 r.1 0 [] (.sexpr "f" [.integer 0])).map Prod.snd
      = some [ExprAst.integer 1] ∧
    (some [ExprAst.integer 1] : Option (List ExprAst)) ≠ some [ExprAst.integer 2] :=
  ⟨rfl, by simp⟩

/-- C2 (counterexample): the claim states that every successful
`execute_node` grows the stack by exactly one.  Evaluating
`(if false 2)` with `Integer(7)` already on the stack succeeds and
returns a stack of length 1 — equal to, not one more than, the entry
length: the `if` builtin's final `pop` consumed the value below its
operands and returned it. -/
theorem C2_counterexample :
    ¬ ∀ (st' : Store) (s' : List ExprAst),
        execute_node 20 store0 0 [ExprAst.integer 7]
          (.sexpr "if" [.boolean false, .integer 2]) = some (st', s') →
        s'.length = ([ExprAst.integer 7] : List ExprAst).length + 1 := by
  intro h
  have h1 := h store0 [ExprAst.integer 7] rfl
  simp at h1

/-- C2 (amended): every successful `execute_node` leaves a stack of
length AT MOST one more than it found: the trim loop (interp.rs 182-185)
cuts the stack down to `stacklen + 1` whenever it grew beyond that, but
builtins can consume values below the base (see the counterexample), so
the net growth can also be zero or negative. -/
theorem C2_amended_stack_growth_at_most_one (fuel : Nat) (st : Store)
    (envId : Nat) (s : List ExprAst) (node : ExprAst) (st' : Store)
    (s' : List ExprAst)
    (h : execute_node fuel st envId s node = some (st', s')) :
    s'.length ≤ s.length + 1 := by
  cases fuel with
  | zero => simp [execute_node, evaluator] at h
  | succ fuel =>
      rw [execute_node_succ] at h
      rcases Option.map_eq_some'.mp h with ⟨r, _, heq⟩
      have hs' : s' = trimTo s.length r.2 := by
        have := congrArg Prod.snd heq
        simpa using this.symm
      rw [hs']
      exact trimTo_length_le _ _

/-- Witness for C2 (amended) at a concrete input: evaluating the literal
`3` on an empty stack yields a stack of length `1 ≤ 0 + 1`. -/
theorem C2_amended_witness :
    ([ExprAst.integer 3] : List ExprAst).length ≤ ([] : List ExprAst).length + 1 :=
  C2_amended_stack_growth_at_most_one 5 store0 0 [] (.integer 3) store0
    [ExprAst.integer 3] rfl

/-- C3 (counterexample): the claim states that after
`(define sum (fn [xs...] ...))`, the call `(sum 1 2 3 4)` binds the
variadic parameter to all four arguments and `(len xs...)` in the body
yields `Integer(4)`.  On the code the call fails instead: the binding
loop (interp.rs 151-154) strips the `...` and binds the name `xs`, so
the body identifier `xs...` is unbound — and the excess-argument
truncation (interp.rs 139-144) would in any case have discarded
arguments 2, 3 and 4 before binding. -/
theorem C3_counterexample :
    ((execute_node 50 store0 0 []
        (.sexpr "define" [.ident "sum",
          .sexpr "fn" [.array [.ident "xs..."], .sexpr "len" [.ident "xs..."]]])).bind
      fun r => execute_node 50 r.1 0 []
        (.sexpr "sum" [.integer 1, .integer 2, .integer 3, .integer 4])) = none ∧
    ((none : Option (Store × List ExprAst)).map Prod.snd
      ≠ some [ExprAst.integer 4]) :=
  ⟨rfl, by simp⟩

/-- C3 (amended): the variadic marker binds the name WITHOUT the dots,
and because `execute_node` discards the arguments beyond the parameter
count before binding (interp.rs 139-144), a lone `xs...` collects only
the first argument: after `(define sum (fn [xs...] (len xs)))`, the call
`(sum 1 2 3 4)` binds `xs` to the one-element array `[1]` and returns
`Integer(1)`. -/
theorem C3_amended_variadic_collects_only_first :
    ((execute_node 50 store0 0 []
        (.sexpr "define" [.ident "sum",
          .sexpr "fn" [.array [.ident "xs..."], .sexpr "len" [.ident "xs"]]])).bind
      fun r => execute_node 50 r.1 0 []
        (.sexpr "sum" [.integer 1, .integer 2, .integer 3, .integer 4])).map Prod.snd
      = some [ExprAst.integer 1] := rfl

/-- C4: the `if` form requires a `Boolean` condition (any other type is
an error), evaluates exactly the selected branch (the other branch is
popped unevaluated), returns the selected branch's value, and when the
false branch is omitted and the condition is false returns whatever was
left on the stack below — stated generally over the operand stack
(`ifexpr_three_operands`/`ifexpr_two_operands`) and at concrete runs
through `execute_node` (an unbound `boom` in the unselected branch does
not fail; a non-`Boolean` condition does). -/
theorem C4_if_condition_and_branch_selection :
    (∀ (fuel : Nat) (st : Store) (envId : Nat) (base : List ExprAst)
        (c t e : ExprAst),
        Environment.ifexpr (fuel + 1) st envId (base ++ [c, t, e]) 3 =
          (match c with
           | .boolean true =>
               (execute_node fuel st envId base t).bind fun r =>
                 (r.2.getLast?).map fun res => (r.1, (r.2.dropLast, res))
           | .boolean false =>
               (execute_node fuel st envId base e).bind fun r =>
                 (r.2.getLast?).map fun res => (r.1, (r.2.dropLast, res))
           | _ => none)) ∧
    (∀ (fuel : Nat) (st : Store) (envId : Nat) (base : List ExprAst)
        (c t : ExprAst),
        Environment.ifexpr (fuel + 1) st envId (base ++ [c, t]) 2 =
          (match c with
           | .boolean true =>
               (execute_node fuel st envId base t).bind fun r =>
                 (r.2.getLast?).map fun res => (r.1, (r.2.dropLast, res))
           | .boolean false =>
               (base.getLast?).map fun res => (st, (base.dropLast, res))
           | _ => none)) ∧
    (execute_node 50 store0 0 []
        (.sexpr "if" [.boolean true, .sexpr "+" [.integer 1, .integer 2],
          .ident "boom"])).map Prod.snd = some [ExprAst.integer 3] ∧
    (execute_node 50 store0 0 []
        (.sexpr "if" [.boolean false, .ident "boom",
          .sexpr "+" [.integer 1, .integer 2]])).map Prod.snd
      = some [ExprAst.integer 3] ∧
    execute_node 50 store0 0 []
        (.sexpr "if" [.integer 1, .integer 10, .integer 20]) = none ∧
    execute_node 50 store0 0 [ExprAst.integer 41]
        (.sexpr "if" [.boolean false, .integer 9])
      = some (store0, [ExprAst.integer 41]) :=
  ⟨ifexpr_three_operands, ifexpr_two_operands, rfl, rfl, rfl, rfl⟩

/-- C5 (counterexample): the claim states that `+` over Integer operands
returns their EXACT sum.  `Environment::add` accumulates in `f64`
(interp.rs 241-258), and the `i64 -> f64` conversion of
`9007199254740993 = 2^53 + 1` rounds to `2^53`, so
`(+ 9007199254740993)` yields `Integer(9007199254740992)`, not the exact
sum `9007199254740993`. -/
theorem C5_counterexample :
    (execute_node 50 store0 0 []
        (.sexpr "+" [.integer 9007199254740993])).map Prod.snd
      = some [ExprAst.integer 9007199254740992] ∧
    (9007199254740992 : Int) ≠ 9007199254740993 :=
  ⟨rfl, by decide⟩

/-- C5 (amended): `+` sums its operands in an IEEE-754 double
accumulator; the result is always an `Integer` (the accumulated sum cast
back to `i64`) or a `Float`; when every operand is an `Integer` — the
operand window `opnds` sits on top of an arbitrary base stack and `ops`
is its length, as in the builtin's calling convention — the result is an
`Integer`, exact while the values stay within `f64`'s 53-bit precision,
as in `(+ 1 2 3) = Integer(6)`; a `Float` anywhere among the operands
makes the result a `Float` (`1 + 2.0 = 3.0`); a non-numeric operand is
an error. -/
theorem C5_amended_f64_accumulator_sum :
    (∀ (stack s' : List ExprAst) (ops : Nat) (v : ExprAst),
        Environment.add stack ops = some (s', v) →
        (∃ n, v = ExprAst.integer n) ∨ (∃ f, v = ExprAst.float f)) ∧
    (∀ (base opnds s' : List ExprAst) (v : ExprAst),
        (∀ x ∈ opnds, ∃ n, x = ExprAst.integer n) →
        Environment.add (base ++ opnds) opnds.length = some (s', v) →
        ∃ n, v = ExprAst.integer n) ∧
    (∀ (base opnds s' : List ExprAst) (v : ExprAst) (f : F),
        ExprAst.float f ∈ opnds →
        Environment.add (base ++ opnds) opnds.length = some (s', v) →
        ∃ g, v = ExprAst.float g) ∧
    (execute_node 50 store0 0 []
        (.sexpr "+" [.integer 1, .integer 2, .integer 3])).map Prod.snd
      = some [ExprAst.integer 6] ∧
    (execute_node 50 store0 0 []
        (.sexpr "+" [.integer 1, .float (F.finite 1 1)])).map Prod.snd
      = some [ExprAst.float (F.finite 3 0)] ∧
    execute_node 50 store0 0 [] (.sexpr "+" [.str "x"]) = none := by
  refine ⟨?_, ?_, ?_, rfl, rfl, rfl⟩
  · intro stack s' ops v h
    unfold Environment.add at h
    cases hl : Environment.addLoop ops stack (.finite 0 0) false with
    | none => rw [hl] at h; exact absurd h (by simp)
    | some r =>
        rw [hl] at h
        obtain ⟨r1, r2, r3⟩ := r
        simp only [Option.some.injEq, Prod.mk.injEq] at h
        cases r3 with
        | true => exact Or.inr ⟨r2, h.2.symm⟩
        | false => exact Or.inl ⟨F.toI64 r2, h.2.symm⟩
  · intro base opnds s' v hall h
    unfold Environment.add at h
    cases hl : Environment.addLoop opnds.length (base ++ opnds)
        (.finite 0 0) false with
    | none => rw [hl] at h; exact absurd h (by simp)
    | some r =>
        rw [hl] at h
        obtain ⟨r1, r2, r3⟩ := r
        have hd :=
          addLoop_window_int opnds base (.finite 0 0) false r1 r2 r3 hall hl
        subst hd
        simp only [Option.some.injEq, Prod.mk.injEq] at h
        exact ⟨F.toI64 r2, h.2.symm⟩
  · intro base opnds s' v f hf h
    unfold Environment.add at h
    cases hl : Environment.addLoop opnds.length (base ++ opnds)
        (.finite 0 0) false with
    | none => rw [hl] at h; exact absurd h (by simp)
    | some r =>
        rw [hl] at h
        obtain ⟨r1, r2, r3⟩ := r
        have hfl :=
          addLoop_window_float opnds base (.finite 0 0) false r1 r2 r3 f hf hl
        subst hfl
        simp only [Option.some.injEq, Prod.mk.injEq] at h
        exact ⟨r2, h.2.symm⟩

/-- Witness for C5 (amended): over the base stack `[str "x"]`, the
Integer operands `2` and `3` sum to the Integer `5`, and the operand
window `[1, 2.0]` holding a Float sums to the Float `3.0`. -/
theorem C5_amended_witness :
    (∃ n, ExprAst.integer 5 = ExprAst.integer n) ∧
    (∃ g, ExprAst.float (F.finite 3 0) = ExprAst.float g) :=
  ⟨C5_amended_f64_accumulator_sum.2.1 [ExprAst.str "x"]
      [ExprAst.integer 2, ExprAst.integer 3] [ExprAst.str "x"]
      (ExprAst.integer 5)
      (by
        intro x hx
        simp only [List.mem_cons, List.not_mem_nil, or_false] at hx
        rcases hx with h | h
        · exact ⟨2, h⟩
        · exact ⟨3, h⟩)
      rfl,
   C5_amended_f64_accumulator_sum.2.2.1 [ExprAst.str "x"]
      [ExprAst.integer 1, ExprAst.float (F.finite 1 1)] [ExprAst.str "x"]
      (ExprAst.float (F.finite 3 0)) (F.finite 1 1)
      (by simp)
      rfl⟩

/-- C6: the parser's ordered alternatives (sexpr, float, integer,
boolean, nil, ident, string, symbol, list, array, comment — the order
encoded in `parse_expr`) make `parse "1.5"` yield the Float `1.5`
(`F.finite 3 (-1)` is `3 * 2^(-1)`), even though the integer alternative
alone would have accepted the prefix `1` (and the parse would then fail
at `.5`): `float` is tried before `integer`. -/
theorem C6_alternative_order_float_before_integer :
    parse 30 "1.5".data = some (.root [.float (F.finite 3 (-1))]) ∧
    parse_integer ⟨"1.5".data, 0, 1, 1⟩
      = (.ok (.integer 1), ⟨"1.5".data, 1, 1, 2⟩) :=
  ⟨rfl, rfl⟩

theorem storeSet_get_ne : ∀ (l : Store) (i : Nat) (f : Frame) (j : Nat), j ≠ i →
    (l.set i f).get? j = l.get? j
  | [], _, _, _, _ => by simp
  | x :: xs, 0, f, 0, h => absurd rfl h
  | x :: xs, 0, f, j + 1, _ => by simp [List.set]
  | x :: xs, i + 1, f, 0, h => by simp [List.set]
  | x :: xs, i + 1, f, j + 1, h => by
      have := storeSet_get_ne xs i f j (by omega)
      simpa [List.set] using this

/-- `Environment::replace` hits exactly the first frame, walking
parent-ward, that holds the key. -/
theorem envReplace_spec_some : ∀ (fuel : Nat) (st : Store) (id : Nat)
    (key : String) (v : EnvValue) (j : Nat) (fr : Frame),
    firstHolder fuel st id key = some j → st.get? j = some fr →
    envReplace fuel st id key v
      = (st.set j ⟨fr.parent, frameInsert fr.values key v⟩, true)
  | 0, _, _, _, _, _, _, h, _ => by simp [firstHolder] at h
  | fuel + 1, st, id, key, v, j, fr, h, hj => by
      rw [firstHolder] at h
      rw [envReplace]
      cases hid : st.get? id with
      | none => rw [hid] at h; exact absurd h (by simp)
      | some fr0 =>
          simp only [hid] at h ⊢
          by_cases hl : (lookupName fr0.values key).isSome
          · simp only [hl, if_true] at h ⊢
            have hji : j = id := by simpa using h.symm
            subst hji
            have hfr : fr0 = fr := by rw [hid] at hj; exact Option.some.inj hj
            subst hfr
            rfl
          · simp only [hl, if_false, Bool.false_eq_true] at h ⊢
            cases hp : fr0.parent with
            | none => rw [hp] at h; exact absurd h (by simp)
            | some p =>
                rw [hp] at h
                simp only [hp]
                exact envReplace_spec_some fuel st p key v j fr h hj

/-- `Environment::replace` returns `false` and leaves the store alone
when no frame in the chain holds the key. -/
theorem envReplace_spec_none : ∀ (fuel : Nat) (st : Store) (id : Nat)
    (key : String) (v : EnvValue),
    firstHolder fuel st id key = none → envReplace fuel st id key v = (st, false)
  | 0, _, _, _, _, _ => by rw [envReplace]
  | fuel + 1, st, id, key, v, h => by
      rw [firstHolder] at h
      rw [envReplace]
      cases hid : st.get? id with
      | none => simp only [hid]
      | some fr0 =>
          simp only [hid] at h ⊢
          by_cases hl : (lookupName fr0.values key).isSome
          · simp only [hl, if_true] at h
            exact absurd h (by simp)
          · simp only [hl, if_false, Bool.false_eq_true] at h ⊢
            cases hp : fr0.parent with
            | none => simp only [hp]
            | some p =>
                rw [hp] at h
                simp only [hp]
                exact envReplace_spec_none fuel st p key v h

/-- C7: environment operations keep the frame discipline.  (1) Lookup
finds a binding held by the current frame there; (2) on a miss it walks
to the parent; (3) `define`'s insertion (`defineInsert`) rewrites only
the current frame, leaving every other frame of the store unchanged;
(4) `replace` (used by `set`) rewrites exactly the first frame, walking
parent-ward, that already holds the name (`firstHolder`), leaving every
other frame unchanged; (5) when no frame in the chain holds the name,
`replace` changes nothing and reports `false`. -/
theorem C7_environment_frame_discipline :
    (∀ (fuel : Nat) (st : Store) (id : Nat) (key : String) (fr : Frame) (v : EnvValue),
        st.get? id = some fr → lookupName fr.values key = some v →
        envFind (fuel + 1) st id key = some v) ∧
    (∀ (fuel : Nat) (st : Store) (id : Nat) (key : String) (fr : Frame),
        st.get? id = some fr → lookupName fr.values key = none →
        envFind (fuel + 1) st id key =
          (match fr.parent with
           | some p => envFind fuel st p key
           | none => none)) ∧
    (∀ (st : Store) (id : Nat) (key : String) (v : EnvValue) (fr : Frame),
        st.get? id = some fr →
        defineInsert st id key v
          = st.set id ⟨fr.parent, frameInsert fr.values key v⟩ ∧
        ∀ j, j ≠ id → (defineInsert st id key v).get? j = st.get? j) ∧
    (∀ (fuel : Nat) (st : Store) (id : Nat) (key : String) (v : EnvValue)
        (j : Nat) (fr : Frame),
        firstHolder fuel st id key = some j → st.get? j = some fr →
        envReplace fuel st id key v
          = (st.set j ⟨fr.parent, frameInsert fr.values key v⟩, true) ∧
        ∀ i, i ≠ j → (envReplace fuel st id key v).1.get? i = st.get? i) ∧
    (∀ (fuel : Nat) (st : Store) (id : Nat) (key : String) (v : EnvValue),
        firstHolder fuel st id key = none →
        envReplace fuel st id key v = (st, false)) := by
  refine ⟨?_, ?_, ?_, ?_, ?_⟩
  · intro fuel st id key fr v h1 h2
    rw [envFind]
    simp only [h1, h2]
  · intro fuel st id key fr h1 h2
    rw [envFind]
    simp only [h1, h2]
  · intro st id key v fr h1
    constructor
    · unfold defineInsert
      simp only [h1]
    · intro j hj
      unfold defineInsert
      simp only [h1]
      exact storeSet_get_ne st id _ j hj
  · intro fuel st id key v j fr h1 h2
    have heq := envReplace_spec_some fuel st id key v j fr h1 h2
    refine ⟨heq, ?_⟩
    intro i hi
    rw [heq]
    exact storeSet_get_ne st j _ i hi
  · intro fuel st id key v h1
    exact envReplace_spec_none fuel st id key v h1

/-- Witness for C7 at a concrete two-frame store (global frame `0`
binding `a`, child frame `1` empty): a miss in frame `1` walks to the
parent, and `replace` through frame `1` rewrites the binding held by
frame `0` while leaving frame `1` untouched. -/
theorem C7_witness :
    envFind 2 [⟨none, [("a", EnvValue.value (.integer 1))]⟩, ⟨some 0, []⟩] 1 "a"
      = envFind 1 [⟨none, [("a", EnvValue.value (.integer 1))]⟩, ⟨some 0, []⟩] 0 "a" ∧
    envReplace 2 [⟨none, [("a", EnvValue.value (.integer 1))]⟩, ⟨some 0, []⟩] 1 "a"
        (EnvValue.value (.integer 9))
      = ([⟨none, [("a", EnvValue.value (.integer 9))]⟩, ⟨some 0, []⟩], true) := by
  have h := C7_environment_frame_discipline
  constructor
  · exact h.2.1 1 [⟨none, [("a", EnvValue.value (.integer 1))]⟩, ⟨some 0, []⟩] 1 "a"
      ⟨some 0, []⟩ rfl rfl
  · exact (h.2.2.2.1 2 [⟨none, [("a", EnvValue.value (.integer 1))]⟩, ⟨some 0, []⟩]
      1 "a" (EnvValue.value (.integer 9)) 0 ⟨none, [("a", EnvValue.value (.integer 1))]⟩
      rfl rfl).1

theorem lookupName_eq_none_of_not_mem (key : String) :
    ∀ (l : List (String × EnvValue)), key ∉ l.map Prod.fst →
    lookupName l key = none
  | [], _ => rfl
  | (k, v) :: rest, h => by
      simp only [List.map, List.mem_cons] at h
      push_neg at h
      have hk : ¬ k = key := fun hh => h.1 hh.symm
      simp only [lookupName, hk, if_false]
      exact lookupName_eq_none_of_not_mem key rest h.2

/-- Merging leaves keys absent from the module untouched. -/
theorem frameExtend_lookup_none :
    ∀ (modv cur : List (String × EnvValue)) (key : String),
    lookupName modv key = none →
    lookupName (frameExtend cur modv) key = lookupName cur key
  | [], _, _, _ => rfl
  | (k, v) :: rest, cur, key, h => by
      have hk : ¬ k = key := by
        intro hh
        simp [lookupName, hh] at h
      have hrest : lookupName rest key = none := by
        simpa [lookupName, hk] using h
      show lookupName (frameExtend (frameInsert cur k v) rest) key = _
      rw [frameExtend_lookup_none rest (frameInsert cur k v) key hrest,
        lookupName_frameInsert, if_neg hk]

/-- Merging makes every module binding visible (module keys are the
distinct keys of a `HashMap`). -/
theorem frameExtend_lookup_some :
    ∀ (modv cur : List (String × EnvValue)) (key : String) (v : EnvValue),
    (modv.map Prod.fst).Nodup → lookupName modv key = some v →
    lookupName (frameExtend cur modv) key = some v
  | [], _, _, _, _, h => by simp [lookupName] at h
  | (k, w) :: rest, cur, key, v, hnd, h => by
      rw [List.map_cons, List.nodup_cons] at hnd
      by_cases hk : k = key
      · subst hk
        have hv : w = v := by simpa [lookupName] using h
        subst hv
        have hnone : lookupName rest k = none :=
          lookupName_eq_none_of_not_mem k rest hnd.1
        show lookupName (frameExtend (frameInsert cur k w) rest) k = some w
        rw [frameExtend_lookup_none rest (frameInsert cur k w) k hnone,
          lookupName_frameInsert, if_pos rfl]
      · have hrest : lookupName rest key = some v := by
          simpa [lookupName, hk] using h
        exact frameExtend_lookup_some rest (frameInsert cur k w) key v hnd.2 hrest

/-- C9: a successful `import` merges the module interpreter's global
frame into the importing current frame with `values.extend`
(interp.rs 500), modelled by `frameExtend`: every module binding —
builtins, `FILE` (the resolved module path set by `set_file`), and the
module's own definitions — overwrites any same-named binding of the
current frame, while bindings absent from the module are untouched; in
particular the merged frame's `FILE` is the module's, no longer the
importing file's. -/
theorem C9_import_overwrites_current_frame :
    (∀ (cur modv : List (String × EnvValue)) (key : String) (v : EnvValue),
        (modv.map Prod.fst).Nodup → lookupName modv key = some v →
        lookupName (frameExtend cur modv) key = some v) ∧
    (∀ (cur modv : List (String × EnvValue)) (key : String),
        lookupName modv key = none →
        lookupName (frameExtend cur modv) key = lookupName cur key) ∧
    (∀ (cur modv : List (String × EnvValue)) (path : String),
        (modv.map Prod.fst).Nodup →
        lookupName modv "FILE" = some (.value (.str path)) →
        lookupName (frameExtend cur modv) "FILE" = some (.value (.str path))) := by
  refine ⟨?_, ?_, ?_⟩
  · intro cur modv key v hnd h
    exact frameExtend_lookup_some modv cur key v hnd h
  · intro cur modv key h
    exact frameExtend_lookup_none modv cur key h
  · intro cur modv path hnd h
    exact frameExtend_lookup_some modv cur "FILE" _ hnd h

/-- Witness for C9 at concrete frames: importing a module whose `FILE`
is `lib.irl` into a frame whose `FILE` was `main.irl` overwrites `FILE`
and adds the module's `y`, while the current frame's own `x` survives. -/
theorem C9_witness :
    lookupName
      (frameExtend
        [("FILE", EnvValue.value (.str "main.irl")), ("x", EnvValue.value (.integer 1))]
        [("FILE", EnvValue.value (.str "lib.irl")), ("y", EnvValue.value (.integer 2))])
      "FILE" = some (EnvValue.value (.str "lib.irl")) ∧
    lookupName
      (frameExtend
        [("FILE", EnvValue.value (.str "main.irl")), ("x", EnvValue.value (.integer 1))]
        [("FILE", EnvValue.value (.str "lib.irl")), ("y", EnvValue.value (.integer 2))])
      "x" = lookupName
        [("FILE", EnvValue.value (.str "main.irl")), ("x", EnvValue.value (.integer 1))] "x" := by
  have h := C9_import_overwrites_current_frame
  constructor
  · exact h.2.2
      [("FILE", EnvValue.value (.str "main.irl")), ("x", EnvValue.value (.integer 1))]
      [("FILE", EnvValue.value (.str "lib.irl")), ("y", EnvValue.value (.integer 2))]
      "lib.irl" (by decide) rfl
  · exact h.2.1
      [("FILE", EnvValue.value (.str "main.irl")), ("x", EnvValue.value (.integer 1))]
      [("FILE", EnvValue.value (.str "lib.irl")), ("y", EnvValue.value (.integer 2))]
      "x" rfl

/-- C8: `get` on an Array of length `len` and Integer index `i` returns
the element at `i` when `0 ≤ i < len`, the element at `len + i` when
`i < 0 ≤ len + i`, and fails on every out-of-range index; in particular
`(get [10 20 30] -1)` is `Integer(30)` and `(get [10 20 30] 0)` is
`Integer(10)`, while indices `3` and `-4` are errors. -/
theorem C8_get_indexing :
    (∀ (base items : List ExprAst) (i : Int),
        Environment.get (base ++ [.array items, .integer i]) 2 =
          if 0 ≤ (if i < 0 then (items.length : Int) + i else i) ∧
              (if i < 0 then (items.length : Int) + i else i) < (items.length : Int) then
            (items.get? (if i < 0 then (items.length : Int) + i else i).toNat).map
              fun v => (base, v)
          else none) ∧
    (execute_node 50 store0 0 []
        (.sexpr "get" [.array [.integer 10, .integer 20, .integer 30],
          .integer (-1)])).map Prod.snd = some [ExprAst.integer 30] ∧
    (execute_node 50 store0 0 []
        (.sexpr "get" [.array [.integer 10, .integer 20, .integer 30],
          .integer 0])).map Prod.snd = some [ExprAst.integer 10] ∧
    execute_node 50 store0 0 []
        (.sexpr "get" [.array [.integer 10, .integer 20, .integer 30],
          .integer 3]) = none ∧
    execute_node 50 store0 0 []
        (.sexpr "get" [.array [.integer 10, .integer 20, .integer 30],
          .integer (-4)]) = none := by
  refine ⟨?_, rfl, rfl, rfl, rfl⟩
  intro base items i
  unfold Environment.get
  rw [if_neg (by simp)]
  unfold rustRemoveSub
  rw [if_neg (by simp)]
  have hidx : (base ++ [ExprAst.array items, ExprAst.integer i]).length - 2
      = base.length := by simp
  rw [hidx]
  have hrem := vecRemove_append base (ExprAst.array items) [ExprAst.integer i]
  rw [show base ++ ExprAst.array items :: [ExprAst.integer i]
      = base ++ [ExprAst.array items, ExprAst.integer i] from rfl] at hrem
  rw [hrem]
  simp only [List.getLast?_concat, List.dropLast_concat]
  by_cases hi : i < 0
  · simp only [hi, if_true]
    by_cases hr : (items.length : Int) < -i
    · rw [if_pos hr, if_neg (by omega)]
    · rw [if_neg hr, if_pos (by omega)]
      cases hg : items.get? ((items.length : Int) + i).toNat with
      | none => simp [hg]
      | some v => simp [hg]
  · simp only [hi, if_false]
    by_cases hb : (0 ≤ i ∧ i < (items.length : Int))
    · rw [if_pos hb]
      cases hg : items.get? i.toNat with
      | none =>
          exfalso
          have : i.toNat < items.length := by omega
          rw [List.get?_eq_none] at hg
          omega
      | some v => simp [hg]
    · rw [if_neg hb]
      have hge : (items.length : Int) ≤ i := by omega
      have hnone : items.get? i.toNat = none := by
        rw [List.get?_eq_none]
        omega
      rw [List.get?_eq_getElem?] at hnone
      simp [hnone]

/-- `skip_whitespace` does not move when the current character is not
whitespace. -/
theorem skip_whitespace_eq_self (st : PState)
    (h : (charAt st).isWhitespace = false) : skip_whitespace st = st := by
  unfold skip_whitespace
  simp [skipWsLoop, h]

theorem getD_last_of_getLast? : ∀ (l : List Char) (a : Char),
    l.getLast? = some a → l.getD (l.length - 1) ' ' = a
  | [], a, h => by simp at h
  | [x], a, h => by
      simp only [List.getLast?_singleton, Option.some.injEq] at h
      simpa using h
  | x :: y :: rest, a, h => by
      have h2 : (y :: rest).getLast? = some a := by
        simpa [List.getLast?_cons_cons] using h
      have ih := getD_last_of_getLast? (y :: rest) a h2
      simpa using ih

/-- The `parse_string` content loop consumes the whole input when every
double quote at or beyond the current position is immediately preceded
by a backslash. -/
theorem stringLoop_consumes_all : ∀ (fuel : Nat) (st : PState) (buf : List Char),
    st.pos ≤ st.code.length →
    st.code.length - st.pos ≤ fuel →
    (∀ q, st.pos ≤ q → q < st.code.length → st.code.getD q ' ' = '"' →
        st.code.getD (q - 1) ' ' = '\\') →
    (stringLoop fuel st buf).2.pos = st.code.length ∧
    (stringLoop fuel st buf).2.code = st.code
  | 0, st, buf, hle, hfuel, _ => by
      have hp : st.pos = st.code.length := by omega
      exact ⟨hp, rfl⟩
  | fuel + 1, st, buf, hle, hfuel, hq => by
      simp only [stringLoop]
      split
      case isTrue hc =>
        simp only [Bool.and_eq_true, decide_eq_true_eq, Bool.or_eq_true] at hc
        obtain ⟨hlt, _⟩ := hc
        have key : ∀ st2 : PState, st2.code = st.code → st2.pos = st.pos + 1 →
            (stringLoop fuel st2 (buf ++ [charAt st])).2.pos = st.code.length ∧
            (stringLoop fuel st2 (buf ++ [charAt st])).2.code = st.code := by
          intro st2 h1 h2
          have res := stringLoop_consumes_all fuel st2 (buf ++ [charAt st])
            (by rw [h1, h2]; omega) (by rw [h1, h2]; omega)
            (fun q hq1 hq2 hq3 => by
              rw [h1]
              exact hq q (by omega) (by rwa [h1] at hq2) (by rwa [h1] at hq3))
          rw [h1] at res
          exact res
        split
        · exact key _ rfl rfl
        · exact key _ rfl rfl
      case isFalse hc =>
        simp only [Bool.and_eq_true, decide_eq_true_eq, Bool.or_eq_true, not_and,
          not_or] at hc
        by_cases hlt : st.pos < st.code.length
        · exfalso
          have h2 := hc hlt
          by_cases hqq : charAt st = '"'
          · exact h2.2 (hq st.pos le_rfl hlt hqq)
          · exact h2.1 (by simpa using hqq)
        · have hp : st.pos = st.code.length := by omega
          exact ⟨hp, rfl⟩

/-- C10: a string literal whose content ends in a backslash can never be
terminated by its closing quote: the loop of `parse_string` looks only
one character back, treats the closing quote as escaped (even though the
backslash is itself content), consumes to the end of the input, and the
string alternative fails with an end-of-file error.  Stated for any
content that ends in `\\` and contains no quote of its own, with the
literal `"content"` as the whole input. -/
theorem C10_backslash_swallows_closing_quote :
    ∀ content : List Char, content ≠ [] → content.getLast? = some '\\' →
    '"' ∉ content →
    errDesc (parse_string ⟨'"' :: (content ++ ['"']), 0, 1, 1⟩) = some "end of file" ∧
    (parse_string ⟨'"' :: (content ++ ['"']), 0, 1, 1⟩).2.pos
      = ('"' :: (content ++ ['"'])).length := by
  intro content hne hlast hnq
  have hclen : 1 ≤ content.length := by
    cases content with
    | nil => exact absurd rfl hne
    | cons _ _ => simp
  have hlen : ('"' :: (content ++ ['"'])).length = content.length + 2 := by simp
  have hq : ∀ q, 1 ≤ q → q < ('"' :: (content ++ ['"'])).length →
      ('"' :: (content ++ ['"'])).getD q ' ' = '"' →
      ('"' :: (content ++ ['"'])).getD (q - 1) ' ' = '\\' := by
    intro q h1 h2 h3
    obtain ⟨q', rfl⟩ : ∃ q', q = q' + 1 := ⟨q - 1, by omega⟩
    rw [List.getD_cons_succ] at h3
    by_cases hq' : q' < content.length
    · rw [List.getD_append _ _ _ _ hq'] at h3
      exfalso
      apply hnq
      rw [List.getD_eq_getElem _ _ hq'] at h3
      rw [← h3]
      exact List.getElem_mem _
    · have hq'' : q' = content.length := by
        rw [hlen] at h2; omega
      have hstep : q' + 1 - 1 = q' := by omega
      rw [hstep]
      obtain ⟨q2, hq2⟩ : ∃ q2, q' = q2 + 1 := ⟨q' - 1, by omega⟩
      rw [hq2, List.getD_cons_succ]
      have hq2lt : q2 < content.length := by omega
      rw [List.getD_append _ _ _ _ hq2lt]
      have hq2eq : q2 = content.length - 1 := by omega
      rw [hq2eq]
      exact getD_last_of_getLast? content '\\' hlast
  have hsl := stringLoop_consumes_all
      (('"' :: (content ++ ['"'])).length - 1 + 1)
      ⟨'"' :: (content ++ ['"']), 1, 1, 2⟩ []
      (by show (1 : Nat) ≤ ('"' :: (content ++ ['"'])).length; simp)
      (by show ('"' :: (content ++ ['"'])).length - 1
            ≤ ('"' :: (content ++ ['"'])).length - 1 + 1
          omega)
      hq
  have hws : skip_whitespace (⟨'"' :: (content ++ ['"']), 0, 1, 1⟩ : PState)
      = ⟨'"' :: (content ++ ['"']), 0, 1, 1⟩ :=
    skip_whitespace_eq_self _ (by rw [show charAt ⟨'"' :: (content ++ ['"']), 0, 1, 1⟩ = '"' from rfl]; decide)
  simp only [parse_string, hws]
  set L := stringLoop
      ((inc_pos_col (⟨'"' :: (content ++ ['"']), 0, 1, 1⟩ : PState)).code.length
        - (inc_pos_col (⟨'"' :: (content ++ ['"']), 0, 1, 1⟩ : PState)).pos + 1)
      (inc_pos_col (⟨'"' :: (content ++ ['"']), 0, 1, 1⟩ : PState)) [] with hL
  have hpos : L.2.pos = ('"' :: (content ++ ['"'])).length := hsl.1
  have hcode : L.2.code = '"' :: (content ++ ['"']) := hsl.2
  rw [if_neg (show ¬ (0 = ('"' :: (content ++ ['"'])).length) by simp)]
  rw [if_pos (show charAt ⟨'"' :: (content ++ ['"']), 0, 1, 1⟩ = '"' from rfl)]
  rw [if_pos (show L.2.pos = L.2.code.length by rw [hpos, hcode])]
  exact ⟨rfl, hpos⟩

/-- Witness for C10 at the concrete literal `"ab\\"`: the parse consumes
all five characters and fails with an end-of-file error. -/
theorem C10_witness :
    errDesc (parse_string ⟨['"', 'a', 'b', '\\', '"'], 0, 1, 1⟩) = some "end of file" ∧
    (parse_string ⟨['"', 'a', 'b', '\\', '"'], 0, 1, 1⟩).2.pos = 5 :=
  C10_backslash_swallows_closing_quote ['a', 'b', '\\'] (by decide) (by decide)
    (by decide)


end Iron
